import Mathlib

/-!
Verification of the graph-to-circuit compiler core (`src/graph/model.rs`).

The compiler's own data types (`Node`, `NodeGraph`, `OpKind`, `GraphError`,
`NodeConfig`, `VarVisibility`) are declared in neighbouring modules that are
not part of the sources at hand; they are modelled here from the design
document (§3, §7), while every algorithm (`assign_execution_buckets`,
`configure`, `conf_table`, `conf_poly_ops`, `layout_config`,
`max_node_params`, `max_node_vars_fused`, `max_node_vars_non_fused`,
`num_advice`, `num_fixed`, `num_instances`) is translated from the Rust
source in `model.rs`.
-/

namespace EzklModel

/-- Modelled from the spec: `op_kind` tagged variant (§3) — `Input`,
`Const`, `Poly(op)`, `Lookup(op)`, `Unknown`.  The payloads of `Poly` and
`Lookup` operations are opaque identifiers; only their equality matters to
the compiler core. -/
inductive OpKind where
  | input : OpKind
  | const : OpKind
  | poly (op : Nat) : OpKind
  | lookup (op : Nat) : OpKind
  | unknown : OpKind
deriving DecidableEq, Repr

/-- `OpKind::is_const` -/
def OpKind.is_const : OpKind → Bool
  | .const => true
  | _ => false

/-- `OpKind::is_input` -/
def OpKind.is_input : OpKind → Bool
  | .input => true
  | _ => false

/-- `OpKind::is_poly` -/
def OpKind.is_poly : OpKind → Bool
  | .poly _ => true
  | _ => false

/-- `OpKind::is_lookup` -/
def OpKind.is_lookup : OpKind → Bool
  | .lookup _ => true
  | _ => false

/-- Modelled from the spec: one graph node (§3).  `inputs` holds the
producer node indices (the `.node` field of each outlet), `in_dims` /
`out_dims` the tensor shapes, and `bucket` the optional ordinal assigned
by the scheduler. -/
structure Node where
  idx : Nat
  opkind : OpKind
  inputs : List Nat
  in_dims : List (List Nat)
  out_dims : List Nat
  bucket : Option Nat
deriving DecidableEq, Repr

/-- Modelled from the spec: the error kinds of §7 (`GraphError`). -/
inductive GraphError where
  | ModelLoad : GraphError
  | MissingNode (idx : Nat) : GraphError
  | WrongMethod (idx : Nat) (op : OpKind) : GraphError
  | InvalidLookupInputs : GraphError
  | UnsupportedOp : GraphError
deriving DecidableEq, Repr

/-- Outcome of running a fallible routine of the compiler: it can panic
(an `unwrap`/index failure in the Rust source), fail with a structured
`GraphError`, or succeed. -/
inductive Res (α : Type) where
  | panic : Res α
  | err (e : GraphError) : Res α
  | ok (a : α) : Res α
deriving DecidableEq, Repr

/-- Bucket keys are `Option Nat`; `none` sorts before every `some`
(BTreeMap order on `Option<usize>`). -/
def bucketLt : Option Nat → Option Nat → Bool
  | none, none => false
  | none, some _ => true
  | some _, none => false
  | some a, some b => decide (a < b)

/-- Insert into the sorted inner (index → node) list of one bucket,
replacing an existing binding of the same index. -/
def insertInner (idx : Nat) (node : Node) : List (Nat × Node) → List (Nat × Node)
  | [] => [(idx, node)]
  | (k, m) :: rest =>
    if idx = k then (idx, node) :: rest
    else if idx < k then (idx, node) :: (k, m) :: rest
    else (k, m) :: insertInner idx node rest

/-- Insert into the sorted outer (bucket → inner map) list. -/
def insertBuckets (b : Option Nat) (idx : Nat) (node : Node) :
    List (Option Nat × List (Nat × Node)) → List (Option Nat × List (Nat × Node))
  | [] => [(b, [(idx, node)])]
  | (k, inner) :: rest =>
    if b = k then (k, insertInner idx node inner) :: rest
    else if bucketLt b k then (b, [(idx, node)]) :: (k, inner) :: rest
    else (k, inner) :: insertBuckets b idx node rest

/-- Modelled from the spec: `NodeGraph` (§3) — a bucket-keyed nested
ordered map `Option<bucket> → index → Node`, kept as sorted association
lists (ascending bucket with `none` first, ascending index within a
bucket). -/
structure NodeGraph where
  buckets : List (Option Nat × List (Nat × Node))
deriving DecidableEq, Repr

/-- `NodeGraph::insert(bucket, idx, node)`. -/
def NodeGraph.insert (g : NodeGraph) (b : Option Nat) (idx : Nat) (node : Node) : NodeGraph :=
  ⟨insertBuckets b idx node g.buckets⟩

/-- The (bucket, index, node) triples of the graph in iteration order. -/
def NodeGraph.entries (g : NodeGraph) : List (Option Nat × Nat × Node) :=
  g.buckets.flatMap (fun p => p.2.map (fun q => (p.1, q.1, q.2)))

/-- `NodeGraph::flatten` — all nodes in (bucket, index) iteration order. -/
def NodeGraph.flatten (g : NodeGraph) : List Node :=
  g.entries.map (fun e => e.2.2)

/-- Modelled from the spec: `NodeGraph::filter(idx)` retrieves the node
with the given index (§3: a mapping from bucket to a mapping from node
index to Node).  A missing index yields `none`; the scheduler treats that
as "no assigned bucket yet" and fails with `MissingNode` (§4.1 step 3,
Scenario C). -/
def NodeGraph.filterNode (g : NodeGraph) (idx : Nat) : Option Node :=
  g.flatten.find? (fun n => n.idx = idx)

/-- `prev_buckets.iter().max()` — maximum of a list of naturals, `none`
when empty. -/
def maxOpt : List Nat → Option Nat
  | [] => none
  | x :: xs =>
    match maxOpt xs with
    | none => some x
    | some m => some (max x m)

/-- The input-scanning loop of `assign_execution_buckets`: walk the
node's input indices, skip const inputs, collect the buckets of the
others; an input that is absent from the bucketed graph or has no bucket
fails with `MissingNode`. -/
def collectPrevBuckets (g : NodeGraph) : List Nat → Except GraphError (List Nat)
  | [] => .ok []
  | i :: rest =>
    match g.filterNode i with
    | none => .error (.MissingNode i)
    | some m =>
      if m.opkind.is_const then collectPrevBuckets g rest
      else
        match m.bucket with
        | some b =>
          match collectPrevBuckets g rest with
          | .ok bs => .ok (b :: bs)
          | .error e => .error e
        | none => .error (.MissingNode i)

/-- The body of `Model::assign_execution_buckets`'s `for` loop, recursing
over the remaining nodes with the accumulated bucketed graph. -/
def assignLoop (g : NodeGraph) : List Node → Res NodeGraph
  | [] => .ok g
  | node :: rest =>
    match collectPrevBuckets g node.inputs with
    | .error e => .err e
    | .ok prevBuckets =>
      match node.opkind with
      | .input => assignLoop (g.insert (some 0) node.idx { node with bucket := some 0 }) rest
      | .const => assignLoop (g.insert none node.idx { node with bucket := none }) rest
      | .poly _ =>
        match maxOpt prevBuckets with
        | none => .panic
        | some b => assignLoop (g.insert (some b) node.idx { node with bucket := some b }) rest
      | .lookup _ =>
        match maxOpt prevBuckets with
        | none => .panic
        | some b =>
          assignLoop (g.insert (some (b + 1)) node.idx { node with bucket := some (b + 1) }) rest
      | .unknown => .err (.WrongMethod node.idx node.opkind)

/-- `Model::assign_execution_buckets`, taking the ingested nodes in
ascending index order (the iteration order of the `BTreeMap<usize, Node>`
built by `Model::new`, whose key is the node's index). -/
def assign_execution_buckets (nodes : List Node) : Res NodeGraph :=
  assignLoop ⟨[]⟩ nodes

/-- Modelled from the spec: `VarVisibility` (§3) — a tri-state policy
over input / params / output; each flag records whether that side is
`Public`. -/
structure VarVisibility where
  input : Bool
  params : Bool
  output : Bool
deriving DecidableEq, Repr

/-- A column binding produced by `VarTensor::reshape` on one of the
shared columns: the column kind, the ordinal slot taken from the running
counter, and the shape the caller reshaped it to. -/
inductive ColumnB where
  | advice (slot : Nat) (shape : List Nat) : ColumnB
  | fixed (slot : Nat) (shape : List Nat) : ColumnB
deriving DecidableEq, Repr

/-- The shape recorded in a column binding. -/
def ColumnB.shape : ColumnB → List Nat
  | .advice _ s => s
  | .fixed _ s => s

/-- Modelled from the spec: `NodeConfig` (§3).  `lookupC` keeps the
table identity it resolved to and the node's input indices; `polyC`
keeps the fused group's external input bindings and the output binding.
`otherC` stands for the remaining variants, which reach the
`UnsupportedOp` arm of `layout_config`. -/
inductive NodeConfigE where
  | constC : NodeConfigE
  | inputC : NodeConfigE
  | lookupC (tableId : Nat) (inputs : List Nat) : NodeConfigE
  | polyC (inputs : List (Nat × ColumnB)) (output : ColumnB) : NodeConfigE
  | otherC : NodeConfigE
deriving DecidableEq, Repr

/-- Association-list lookup (for the `tables` and `results` BTreeMaps). -/
def assocFind {α β : Type} [DecidableEq α] (k : α) : List (α × β) → Option β
  | [] => none
  | (k', v) :: rest => if k = k' then some v else assocFind k rest

/-- Association-list insert, replacing an existing binding of the key. -/
def assocInsert {α β : Type} [DecidableEq α] (k : α) (v : β) : List (α × β) → List (α × β)
  | [] => [(k, v)]
  | (k', v') :: rest => if k = k' then (k, v) :: rest else (k', v') :: assocInsert k v rest

/-- The registry of lookup tables built during `configure`: the
association from operation-list key to the allocated table, each table
identified by the allocation counter's value when it was created, and
the counter itself. -/
structure Tables where
  assoc : List (List Nat × Nat)
  nextId : Nat
deriving DecidableEq, Repr

/-- `Model::conf_non_op_node`. -/
def conf_non_op_node (node : Node) : Res NodeConfigE :=
  match node.opkind with
  | .const => .ok .constC
  | .input => .ok .inputC
  | .unknown => .panic
  | c => .err (.WrongMethod node.idx c)

/-- `Model::conf_table`.  The source first evaluates
`node.in_dims[0]` (a panic when `in_dims` is empty), collects the node's
input indices, checks the op kind, and then either allocates a fresh
table for the operation-list key `vec![op]` (registering it in `tables`)
or reuses the registered table via `configure_with_table`. -/
def conf_table (node : Node) (tables : Tables) : Res (NodeConfigE × Tables) :=
  match node.in_dims with
  | [] => .panic
  | _ :: _ =>
    let node_inputs := node.inputs
    match node.opkind with
    | .lookup l =>
      match assocFind [l] tables.assoc with
      | none =>
        .ok (.lookupC tables.nextId node_inputs,
          ⟨tables.assoc ++ [([l], tables.nextId)], tables.nextId + 1⟩)
      | some tid => .ok (.lookupC tid node_inputs, tables)
    | c => .err (.WrongMethod node.idx c)

/-- Resolve a list of input indices through `NodeGraph::filter`; the Rust
source panics when an index is absent, here `none`. -/
def resolveInputs (g : NodeGraph) : List Nat → Option (List Node)
  | [] => some []
  | j :: rest =>
    match g.filterNode j with
    | none => none
    | some m =>
      match resolveInputs g rest with
      | none => none
      | some tl => some (m :: tl)

/-- The per-node pass of `conf_poly_ops` that builds the `input_nodes`
map: for each (index, node) of the group in ascending-index order, check
it is a `Poly` op (else `WrongMethod`) and resolve each of its input
indices through `NodeGraph::filter` (a panic when absent). -/
def buildInputNodes (g : NodeGraph) : List (Nat × Node) → Res (List ((Nat × Nat) × List Node))
  | [] => .ok []
  | (i, n) :: rest =>
    match n.opkind with
    | .poly f =>
      match resolveInputs g n.inputs with
      | none => .panic
      | some ins =>
        match buildInputNodes g rest with
        | .ok tl => .ok (((i, f), ins) :: tl)
        | .err e => .err e
        | .panic => .panic
    | k => .err (.WrongMethod n.idx k)

/-- The running state of the `inputs_to_layer` fold in `conf_poly_ops`:
the `seen` dedup set, the two independent slot counters, and the bindings
accumulated so far. -/
structure FuseState where
  seen : List Nat
  adviceIdx : Nat
  fixedIdx : Nat
  outList : List (Nat × ColumnB)
deriving DecidableEq, Repr

/-- One step of the `inputs_to_layer` fold: skip inputs inside the fusion
group and inputs already seen; otherwise bind a `Const` input to the next
fixed slot when params are public, and any other input to the next advice
slot. -/
def fuseStep (paramsPublic : Bool) (groupKeys : List Nat) (st : FuseState) (f : Node) :
    FuseState :=
  if groupKeys.contains f.idx then st
  else if st.seen.contains f.idx then st
  else if f.opkind.is_const && paramsPublic then
    { seen := st.seen ++ [f.idx], adviceIdx := st.adviceIdx, fixedIdx := st.fixedIdx + 1,
      outList := st.outList ++ [(f.idx, .fixed st.fixedIdx f.out_dims)] }
  else
    { seen := st.seen ++ [f.idx], adviceIdx := st.adviceIdx + 1, fixedIdx := st.fixedIdx,
      outList := st.outList ++ [(f.idx, .advice st.adviceIdx f.out_dims)] }

/-- `inputs_to_layer` of `conf_poly_ops`: fold `fuseStep` over the
concatenated resolved input nodes of the whole fusion group. -/
def inputs_to_layer (paramsPublic : Bool) (groupKeys : List Nat) (allInputs : List Node) :
    FuseState :=
  allInputs.foldl (fuseStep paramsPublic groupKeys) ⟨[], 0, 0, []⟩

/-- `Model::conf_poly_ops` on the `Poly` nodes of one bucket (given in
ascending-index order): build the per-node input lists, fold the external
inputs into column bindings, and bind the output to the next advice slot
with the shape of the maximum-index node of the group. -/
def conf_poly_ops (g : NodeGraph) (paramsPublic : Bool) (polyNodes : List (Nat × Node)) :
    Res NodeConfigE :=
  match buildInputNodes g polyNodes with
  | .err e => .err e
  | .panic => .panic
  | .ok pairs =>
    let groupKeys := polyNodes.map (fun p => p.1)
    let st := inputs_to_layer paramsPublic groupKeys (pairs.flatMap (fun p => p.2))
    match maxOpt groupKeys with
    | none => .panic
    | some maxKey =>
      match g.filterNode maxKey with
      | none => .panic
      | some outNode => .ok (.polyC st.outList (.advice st.adviceIdx outNode.out_dims))

/-- The `non_op_nodes` loop of `configure`: record a config for each
const/input node of the bucket. -/
def confNonOpList (results : List (Nat × NodeConfigE)) :
    List (Nat × Node) → Res (List (Nat × NodeConfigE))
  | [] => .ok results
  | (i, n) :: rest =>
    match conf_non_op_node n with
    | .ok c => confNonOpList (assocInsert i c results) rest
    | .err e => .err e
    | .panic => .panic

/-- The `lookup_ops` loop of `configure`: configure each lookup node in
ascending-index order, threading the table registry. -/
def confLookupList (results : List (Nat × NodeConfigE)) (tables : Tables) :
    List (Nat × Node) → Res (List (Nat × NodeConfigE) × Tables)
  | [] => .ok (results, tables)
  | (i, n) :: rest =>
    match conf_table n tables with
    | .ok (cfg, tbl) => confLookupList (assocInsert i cfg results) tbl rest
    | .err e => .err e
    | .panic => .panic

/-- The body of `configure` for one bucket: configure the const/input
nodes, then the lookup nodes (threading the table registry), then — when
the bucket holds `Poly` nodes — one fused config recorded under the
group's maximum index. -/
def configureBucket (g : NodeGraph) (vis : VarVisibility)
    (bnodes : List (Nat × Node)) (results : List (Nat × NodeConfigE)) (tables : Tables) :
    Res (List (Nat × NodeConfigE) × Tables) :=
  match confNonOpList results (bnodes.filter (fun p => p.2.opkind.is_const || p.2.opkind.is_input)) with
  | .err e => .err e
  | .panic => .panic
  | .ok results =>
    match confLookupList results tables (bnodes.filter (fun p => p.2.opkind.is_lookup)) with
    | .err e => .err e
    | .panic => .panic
    | .ok (results, tables) =>
      let polys := bnodes.filter (fun p => p.2.opkind.is_poly)
      if polys.isEmpty then .ok (results, tables)
      else
        match conf_poly_ops g vis.params polys with
        | .err e => .err e
        | .panic => .panic
        | .ok cfg =>
          match maxOpt (polys.map (fun p => p.1)) with
          | none => .panic
          | some maxKey => .ok (assocInsert maxKey cfg results, tables)

/-- The bucket loop of `configure`. -/
def configureLoop (g : NodeGraph) (vis : VarVisibility)
    (results : List (Nat × NodeConfigE)) (tables : Tables) :
    List (Option Nat × List (Nat × Node)) → Res (List (Nat × NodeConfigE) × Tables)
  | [] => .ok (results, tables)
  | (_, bnodes) :: rest =>
    match configureBucket g vis bnodes results tables with
    | .ok (results, tables) => configureLoop g vis results tables rest
    | .err e => .err e
    | .panic => .panic

/-- `Model::configure`, restricted to the per-node configuration it
records (the `results` map) and the lookup-table registry it builds; the
range checks on public outputs and the cloning of the model into the
returned `ModelConfig` are omitted, as no claim concerns them. -/
def configure (g : NodeGraph) (vis : VarVisibility) :
    Res (List (Nat × NodeConfigE) × Tables) :=
  configureLoop g vis [] ⟨[], 0⟩ g.buckets

/-- `Model::layout_config`, keeping the dispatch and error structure and
abstracting the actual halo2 region assignment (which lives in the
`circuit` modules) to a success marker: `some` for configs that produce a
value, `none` for `Input`/`Const`. -/
def layout_config (g : NodeGraph) (resultKeys : List Nat) : NodeConfigE → Res (Option Unit)
  | .polyC binds _ =>
    if binds.all (fun b =>
        match g.filterNode b.1 with
        | none => false
        | some m => m.opkind.is_const || resultKeys.contains b.1) then
      .ok (some ())
    else .panic
  | .lookupC _ ins =>
    if ins.length ≠ 1 then .err .InvalidLookupInputs
    else if resultKeys.contains (ins.headD 0) then .ok (some ()) else .panic
  | .inputC => .ok none
  | .constC => .ok none
  | .otherC => .err .UnsupportedOp

/-- `itertools::unique()` — keep the first occurrence of each element,
tracking the elements already emitted. -/
def firstOccurAux {α : Type} [DecidableEq α] (seen : List α) : List α → List α
  | [] => []
  | x :: xs =>
    if seen.contains x then firstOccurAux seen xs
    else x :: firstOccurAux (seen ++ [x]) xs

/-- `itertools::unique()` from the empty seen-set. -/
def firstOccur {α : Type} [DecidableEq α] (l : List α) : List α :=
  firstOccurAux [] l

/-- `self.nodes.filter(*id).opkind.is_const()`.  The source panics when
the index is absent; no caller reaches that corner in the claims, and a
missing index is counted as not-const here. -/
def isConstIn (g : NodeGraph) (id : Nat) : Bool :=
  match g.filterNode id with
  | some m => m.opkind.is_const
  | none => false

/-- The per-bucket body of `max_node_params`: the distinct constant
external inputs of the bucket's fusion group (inputs of the bucket's
`Poly` nodes that are outside the group and refer to `Const` nodes,
first occurrences only). -/
def bucketParams (g : NodeGraph) (bnodes : List (Nat × Node)) : List Nat :=
  let fused := bnodes.filter (fun p => p.2.opkind.is_poly)
  let fusedKeys := fused.map (fun p => p.1)
  firstOccur (((fused.flatMap (fun p => p.2.inputs)).filter
      (fun id => !fusedKeys.contains id)).filter (fun id => isConstIn g id))

/-- The per-bucket body of `max_node_vars_fused`: the distinct
non-constant external inputs of the bucket's fusion group. -/
def bucketFusedVars (g : NodeGraph) (bnodes : List (Nat × Node)) : List Nat :=
  let fused := bnodes.filter (fun p => p.2.opkind.is_poly)
  let fusedKeys := fused.map (fun p => p.1)
  firstOccur (((fused.flatMap (fun p => p.2.inputs)).filter
      (fun id => !fusedKeys.contains id)).filter (fun id => !isConstIn g id))

/-- The per-bucket body of `max_node_vars_non_fused`: the largest input
count over the bucket's non-`Poly` nodes (`unwrap_or(0)` when none). -/
def bucketNonFusedVars (bnodes : List (Nat × Node)) : Nat :=
  (maxOpt ((bnodes.filter (fun p => !p.2.opkind.is_poly)).map
      (fun p => p.2.inputs.length))).getD 0

/-- `Model::max_node_params` — the largest `bucketParams` count over all
buckets, plus one ("add 1 for layer output" in the source). -/
def max_node_params (g : NodeGraph) : Nat :=
  (g.buckets.foldl (fun m p => max m (bucketParams g p.2).length) 0) + 1

/-- `Model::max_node_vars_fused` — the largest `bucketFusedVars` count
over all buckets, plus one for the layer output. -/
def max_node_vars_fused (g : NodeGraph) : Nat :=
  (g.buckets.foldl (fun m p => max m (bucketFusedVars g p.2).length) 0) + 1

/-- `Model::max_node_vars_non_fused` — the largest `bucketNonFusedVars`
over all buckets, plus one for the layer output. -/
def max_node_vars_non_fused (g : NodeGraph) : Nat :=
  (g.buckets.foldl (fun m p => max m (bucketNonFusedVars p.2)) 0) + 1

/-- `Model::num_advice`. -/
def num_advice (g : NodeGraph) (paramsPublic : Bool) : Nat :=
  if paramsPublic then max (max_node_vars_non_fused g) (max_node_vars_fused g)
  else max (max_node_vars_non_fused g) (max_node_params g + max_node_vars_fused g)

/-- `Model::num_fixed`. -/
def num_fixed (g : NodeGraph) (paramsPublic : Bool) : Nat :=
  if paramsPublic then max_node_params g else 0

/-- The model as the resource allocator sees it: the bucketed graph, the
ids of the graph's input and output nodes, and the visibility policy. -/
structure ModelE where
  graph : NodeGraph
  modelInputs : List Nat
  modelOutputs : List Nat
  visibility : VarVisibility
deriving DecidableEq, Repr

/-- `self.nodes.filter(o.node).out_dims`; the source panics on a missing
id, modelled as the empty shape (no claim exercises that corner). -/
def outDimsAt (g : NodeGraph) (o : Nat) : List Nat :=
  match g.filterNode o with
  | some m => m.out_dims
  | none => []

/-- `Model::num_instances` — the instance-column count and shapes: the
inputs contribute when input visibility is public, then the outputs when
output visibility is public. -/
def num_instances (m : ModelE) : Nat × List (List Nat) :=
  let afterIn :=
    if m.visibility.input
    then (m.modelInputs.length, m.modelInputs.map (outDimsAt m.graph))
    else (0, ([] : List (List Nat)))
  if m.visibility.output
  then (afterIn.1 + m.modelOutputs.length, afterIn.2 ++ m.modelOutputs.map (outDimsAt m.graph))
  else afterIn

/-! ### Statement-side definitions

The following definitions phrase the specification's wording, to be
compared with the functions embedded from the source above. -/

/-- The buckets of the non-const nodes among a list of input indices,
read off a bucketed graph. -/
def inputBucketsList (g : NodeGraph) (is : List Nat) : List Nat :=
  is.filterMap (fun i =>
    match g.filterNode i with
    | some m => if m.opkind.is_const then none else m.bucket
    | none => none)

/-- The buckets of a node's non-const inputs, read off the final bucketed
graph (spec §8: `bucket(Poly node) == max(bucket(non-const inputs))`). -/
def nonConstInputBuckets (g : NodeGraph) (n : Node) : List Nat :=
  inputBucketsList g n.inputs

/-- The scheduling contract of one node, as the claim states it: `Input`
nodes sit in bucket 0, `Const` nodes in no bucket, a `Poly` node in the
maximum bucket of its non-const inputs, and a `Lookup` node strictly
above every non-const input, at that maximum plus one. -/
def nodeBucketOk (g : NodeGraph) (n : Node) : Prop :=
  (n.opkind.is_input → n.bucket = some 0) ∧
  (n.opkind.is_const → n.bucket = none) ∧
  (n.opkind.is_poly → n.bucket = maxOpt (nonConstInputBuckets g n)) ∧
  (n.opkind.is_lookup →
    n.bucket = (maxOpt (nonConstInputBuckets g n)).map (· + 1) ∧
    ∀ x ∈ nonConstInputBuckets g n, ∀ y, n.bucket = some y → x < y)

/-- The first input of a node that has no assigned bucket yet, mirroring
the error detection of the scheduler's input loop: an index absent from
the bucketed graph, or present as a non-const node without a bucket. -/
def firstUnbucketed (g : NodeGraph) : List Nat → Option Nat
  | [] => none
  | i :: rest =>
    match g.filterNode i with
    | none => some i
    | some m =>
      if m.opkind.is_const then firstUnbucketed g rest
      else
        match m.bucket with
        | none => some i
        | some _ => firstUnbucketed g rest

/-- Spec wording for the fuser (claim on external inputs): the external
inputs of a fusion group, deduplicated by node index, in
first-encountered order. -/
def specExternalDedup (groupKeys seen : List Nat) : List Node → List Node
  | [] => []
  | f :: rest =>
    if groupKeys.contains f.idx || seen.contains f.idx then
      specExternalDedup groupKeys seen rest
    else f :: specExternalDedup groupKeys (seen ++ [f.idx]) rest

/-- Spec wording for the fuser's column binding: walk the deduplicated
external inputs, giving each `Const` input the next fixed slot when
params are public and every other input the next advice slot, the two
counters advancing independently. -/
def specBindSeq (paramsPublic : Bool) (adviceIdx fixedIdx : Nat) :
    List Node → List (Nat × ColumnB)
  | [] => []
  | f :: rest =>
    if f.opkind.is_const && paramsPublic then
      (f.idx, .fixed fixedIdx f.out_dims) :: specBindSeq paramsPublic adviceIdx (fixedIdx + 1) rest
    else
      (f.idx, .advice adviceIdx f.out_dims) :: specBindSeq paramsPublic (adviceIdx + 1) fixedIdx rest

/-- Spec wording for `max_params`: the largest count of distinct constant
external inputs over any one bucket's fusion group (no extra output
slot). -/
def specMaxParams (g : NodeGraph) : Nat :=
  g.buckets.foldl (fun m p => max m (bucketParams g p.2).length) 0

/-- Spec wording for `max_vars_fused` without the reserved output slot. -/
def specMaxVarsFused (g : NodeGraph) : Nat :=
  g.buckets.foldl (fun m p => max m (bucketFusedVars g p.2).length) 0

/-- Spec wording for `max_vars_non_fused` without the reserved output
slot. -/
def specMaxVarsNonFused (g : NodeGraph) : Nat :=
  g.buckets.foldl (fun m p => max m (bucketNonFusedVars p.2)) 0

/-! ### Structural lemmas about `NodeGraph` insertion and lookup -/

theorem maxOpt_le_of_mem {l : List Nat} {x : Nat} (hx : x ∈ l) :
    ∀ b, maxOpt l = some b → x ≤ b := by
  induction l with
  | nil => cases hx
  | cons y ys ih =>
    intro b hb
    simp only [maxOpt] at hb
    rcases List.mem_cons.mp hx with rfl | hmem
    · cases hys : maxOpt ys with
      | none => rw [hys] at hb; injection hb with hb; omega
      | some m =>
        rw [hys] at hb; injection hb with hb
        subst hb; exact le_max_left _ _
    · cases hys : maxOpt ys with
      | none =>
        cases ys with
        | nil => cases hmem
        | cons z zs => simp [maxOpt] at hys; cases hz : maxOpt zs <;> rw [hz] at hys <;> cases hys
      | some m =>
        rw [hys] at hb; injection hb with hb
        subst hb
        exact le_trans (ih hmem m hys) (le_max_right _ _)

theorem maxOpt_isSome_of_mem {l : List Nat} {x : Nat} (hx : x ∈ l) :
    ∃ b, maxOpt l = some b := by
  cases l with
  | nil => cases hx
  | cons y ys =>
    simp only [maxOpt]
    cases maxOpt ys <;> exact ⟨_, rfl⟩

theorem find?_middle_of_not {α : Type} (p : α → Bool) (x : α) (l1 l2 : List α)
    (hx : p x = false) :
    List.find? p (l1 ++ x :: l2) = List.find? p (l1 ++ l2) := by
  induction l1 with
  | nil => simp [List.find?, hx]
  | cons y ys ih =>
    simp only [List.cons_append, List.find?]
    cases p y <;> simp [ih]

theorem find?_middle_self {α : Type} (p : α → Bool) (x : α) (l1 l2 : List α)
    (hx : p x = true) (h1 : ∀ y ∈ l1, p y = false) :
    List.find? p (l1 ++ x :: l2) = some x := by
  induction l1 with
  | nil => simp [List.find?, hx]
  | cons y ys ih =>
    have hy : p y = false := h1 y (by simp)
    simp only [List.cons_append, List.find?, hy]
    exact ih (fun z hz => h1 z (by simp [hz]))

theorem insertInner_split (idx : Nat) (nd : Node) (inner : List (Nat × Node))
    (hfresh : ∀ p ∈ inner, p.1 ≠ idx) :
    ∃ I1 I2, inner = I1 ++ I2 ∧ insertInner idx nd inner = I1 ++ (idx, nd) :: I2 := by
  induction inner with
  | nil => exact ⟨[], [], rfl, rfl⟩
  | cons q rest ih =>
    obtain ⟨k, m⟩ := q
    have hk : k ≠ idx := hfresh (k, m) (by simp)
    simp only [insertInner]
    rw [if_neg (fun h => hk h.symm)]
    by_cases hlt : idx < k
    · rw [if_pos hlt]
      exact ⟨[], (k, m) :: rest, rfl, rfl⟩
    · rw [if_neg hlt]
      obtain ⟨I1, I2, h1, h2⟩ := ih (fun p hp => hfresh p (by simp [hp]))
      exact ⟨(k, m) :: I1, I2, by simp [h1], by simp [h2]⟩

theorem entries_insert_split (g : NodeGraph) (b : Option Nat) (idx : Nat) (nd : Node)
    (hfresh : ∀ e ∈ g.entries, e.2.1 ≠ idx) :
    ∃ E1 E2, g.entries = E1 ++ E2 ∧
      (g.insert b idx nd).entries = E1 ++ (b, idx, nd) :: E2 := by
  obtain ⟨bks⟩ := g
  simp only [NodeGraph.insert, NodeGraph.entries] at *
  induction bks with
  | nil => exact ⟨[], [], rfl, rfl⟩
  | cons q rest ih =>
    obtain ⟨k, inner⟩ := q
    simp only [insertBuckets]
    by_cases hbk : b = k
    · rw [if_pos hbk]
      have hfin : ∀ p ∈ inner, p.1 ≠ idx := by
        intro p hp
        exact hfresh (k, p.1, p.2) (by
          simp only [List.flatMap_cons, List.mem_append, List.mem_map]
          exact Or.inl ⟨p, hp, rfl⟩)
      obtain ⟨I1, I2, h1, h2⟩ := insertInner_split idx nd inner hfin
      refine ⟨I1.map (fun q => (k, q.1, q.2)), I2.map (fun q => (k, q.1, q.2)) ++
        rest.flatMap (fun p => p.2.map (fun q => (p.1, q.1, q.2))), ?_, ?_⟩
      · simp [h1]
      · subst hbk; simp [h2]
    · rw [if_neg hbk]
      by_cases hlt : bucketLt b k = true
      · rw [if_pos hlt]
        exact ⟨[], _, rfl, by
          simp only [List.flatMap_cons, List.map_cons, List.map_nil, List.nil_append,
            List.singleton_append, List.flatMap, List.append_eq, List.flatten_cons]⟩
      · rw [if_neg hlt]
        have hfr : ∀ e ∈ rest.flatMap (fun p => p.2.map (fun q => (p.1, q.1, q.2))), e.2.1 ≠ idx := by
          intro e he
          exact hfresh e (by
            simp only [List.flatMap_cons, List.mem_append]
            exact Or.inr he)
        obtain ⟨E1, E2, h1, h2⟩ := ih hfr
        refine ⟨inner.map (fun q => (k, q.1, q.2)) ++ E1, E2, ?_, ?_⟩
        · simp [h1]
        · simp [h2]

theorem mem_entries_insert {g : NodeGraph} {b : Option Nat} {idx : Nat} {nd : Node}
    (hfresh : ∀ e ∈ g.entries, e.2.1 ≠ idx) (e : Option Nat × Nat × Node) :
    e ∈ (g.insert b idx nd).entries ↔ e = (b, idx, nd) ∨ e ∈ g.entries := by
  obtain ⟨E1, E2, h1, h2⟩ := entries_insert_split g b idx nd hfresh
  rw [h2, h1]
  simp only [List.mem_append, List.mem_cons]
  tauto

theorem filterNode_none_of_fresh {g : NodeGraph} {j : Nat}
    (hwf : ∀ e ∈ g.entries, e.2.2.idx = e.2.1)
    (hfresh : ∀ e ∈ g.entries, e.2.1 ≠ j) :
    g.filterNode j = none := by
  apply List.find?_eq_none.mpr
  intro n hn
  simp only [NodeGraph.flatten, List.mem_map] at hn
  obtain ⟨e, he, rfl⟩ := hn
  have := hwf e he
  have := hfresh e he
  simp only [decide_eq_true_eq]
  omega

theorem filterNode_insert_ne {g : NodeGraph} {b : Option Nat} {idx : Nat} {nd : Node}
    (hfresh : ∀ e ∈ g.entries, e.2.1 ≠ idx) (hnd : nd.idx = idx)
    {i : Nat} (hne : i ≠ idx) :
    (g.insert b idx nd).filterNode i = g.filterNode i := by
  obtain ⟨E1, E2, h1, h2⟩ := entries_insert_split g b idx nd hfresh
  simp only [NodeGraph.filterNode, NodeGraph.flatten, h2, h1, List.map_append, List.map_cons]
  exact find?_middle_of_not _ _ _ _ (by simp [hnd]; omega)

theorem filterNode_insert_self {g : NodeGraph} {b : Option Nat} {idx : Nat} {nd : Node}
    (hwf : ∀ e ∈ g.entries, e.2.2.idx = e.2.1)
    (hfresh : ∀ e ∈ g.entries, e.2.1 ≠ idx) (hnd : nd.idx = idx) :
    (g.insert b idx nd).filterNode idx = some nd := by
  obtain ⟨E1, E2, h1, h2⟩ := entries_insert_split g b idx nd hfresh
  simp only [NodeGraph.filterNode, NodeGraph.flatten, h2, List.map_append, List.map_cons]
  apply find?_middle_self
  · simp [hnd]
  · intro y hy
    simp only [List.mem_map] at hy
    obtain ⟨e, he, rfl⟩ := hy
    have he' : e ∈ g.entries := by rw [h1]; exact List.mem_append.mpr (Or.inl he)
    have := hwf e he'
    have := hfresh e he'
    simp only [decide_eq_false_iff_not]
    omega

/-! ### Characterizing the scheduler's input-scanning loop -/

theorem collectPrev_ok_resolved {g : NodeGraph} :
    ∀ {is bs : List Nat}, collectPrevBuckets g is = .ok bs →
      ∀ i ∈ is, ∃ m, g.filterNode i = some m := by
  intro is
  induction is with
  | nil => intro bs _ i hi; cases hi
  | cons j rest ih =>
    intro bs h i hi
    simp only [collectPrevBuckets] at h
    cases hj : g.filterNode j with
    | none => simp [hj] at h
    | some m =>
      simp only [hj] at h
      rcases List.mem_cons.mp hi with rfl | hmem
      · exact ⟨m, hj⟩
      · split at h
        · exact ih h i hmem
        · split at h
          · split at h
            · rename_i bs' hr
              exact ih hr i hmem
            · cases h
          · cases h

theorem collectPrev_ok_buckets {g : NodeGraph} :
    ∀ {is bs : List Nat}, collectPrevBuckets g is = .ok bs →
      inputBucketsList g is = bs := by
  intro is
  induction is with
  | nil =>
    intro bs h
    injection h with h
  | cons j rest ih =>
    intro bs h
    simp only [collectPrevBuckets] at h
    cases hj : g.filterNode j with
    | none => simp [hj] at h
    | some m =>
      simp only [hj] at h
      split at h
      · rename_i hc
        simp only [inputBucketsList, List.filterMap_cons, hj, hc, if_true]
        exact ih h
      · rename_i hc
        split at h
        · rename_i b hbk
          split at h
          · rename_i bs' hr
            injection h with h
            subst h
            simp only [inputBucketsList, List.filterMap_cons, hj, if_neg hc, hbk]
            rw [← ih hr]
            rfl
          · cases h
        · cases h

theorem collectPrev_ok_nil_const {g : NodeGraph} :
    ∀ {is : List Nat}, collectPrevBuckets g is = .ok [] →
      ∀ i ∈ is, ∃ m, g.filterNode i = some m ∧ m.opkind.is_const = true := by
  intro is
  induction is with
  | nil => intro _ i hi; cases hi
  | cons j rest ih =>
    intro h i hi
    simp only [collectPrevBuckets] at h
    cases hj : g.filterNode j with
    | none => simp [hj] at h
    | some m =>
      simp only [hj] at h
      split at h
      · rename_i hc
        rcases List.mem_cons.mp hi with rfl | hmem
        · exact ⟨m, hj, by simpa using hc⟩
        · exact ih h i hmem
      · split at h
        · split at h
          · cases h
          · cases h
        · cases h

/-! ### Stability of lookups and the per-node contract under insertion -/

theorem inputBucketsList_insert_stable {g : NodeGraph} {b : Option Nat} {idx : Nat} {nd : Node}
    (hwf : ∀ e ∈ g.entries, e.2.2.idx = e.2.1)
    (hfresh : ∀ e ∈ g.entries, e.2.1 ≠ idx) (hnd : nd.idx = idx)
    {is : List Nat} (hres : ∀ i ∈ is, ∃ m, g.filterNode i = some m) :
    inputBucketsList (g.insert b idx nd) is = inputBucketsList g is := by
  unfold inputBucketsList
  apply List.filterMap_congr
  intro i hi
  obtain ⟨m, hm⟩ := hres i hi
  have hne : i ≠ idx := by
    intro hcontra
    rw [hcontra] at hm
    rw [filterNode_none_of_fresh hwf hfresh] at hm
    cases hm
  rw [filterNode_insert_ne hfresh hnd hne]

theorem nodeBucketOk_insert_stable {g : NodeGraph} {b : Option Nat} {idx : Nat} {nd : Node}
    (hwf : ∀ e ∈ g.entries, e.2.2.idx = e.2.1)
    (hfresh : ∀ e ∈ g.entries, e.2.1 ≠ idx) (hnd : nd.idx = idx)
    {m : Node} (hres : ∀ i ∈ m.inputs, ∃ m', g.filterNode i = some m')
    (h : nodeBucketOk g m) : nodeBucketOk (g.insert b idx nd) m := by
  have hstable : nonConstInputBuckets (g.insert b idx nd) m = nonConstInputBuckets g m :=
    inputBucketsList_insert_stable hwf hfresh hnd hres
  unfold nodeBucketOk at h ⊢
  rw [hstable]
  exact h

theorem insert_preserves_inv
    (g : NodeGraph) (n : Node) (nb : Option Nat)
    (hwf : ∀ e ∈ g.entries, e.2.2.idx = e.2.1 ∧ e.2.2.bucket = e.1)
    (hres : ∀ e ∈ g.entries, ∀ i ∈ e.2.2.inputs, ∃ m, g.filterNode i = some m)
    (hok : ∀ e ∈ g.entries, nodeBucketOk g e.2.2)
    (hfreshn : ∀ e ∈ g.entries, e.2.1 ≠ n.idx)
    (hresn : ∀ i ∈ n.inputs, ∃ m, g.filterNode i = some m)
    (hoknew : nodeBucketOk g { n with bucket := nb }) :
    (∀ e ∈ (g.insert nb n.idx { n with bucket := nb }).entries,
        e.2.2.idx = e.2.1 ∧ e.2.2.bucket = e.1) ∧
    (∀ e ∈ (g.insert nb n.idx { n with bucket := nb }).entries,
        ∀ i ∈ e.2.2.inputs, ∃ m, (g.insert nb n.idx { n with bucket := nb }).filterNode i = some m) ∧
    (∀ e ∈ (g.insert nb n.idx { n with bucket := nb }).entries,
        nodeBucketOk (g.insert nb n.idx { n with bucket := nb }) e.2.2) := by
  have hwf1 : ∀ e ∈ g.entries, e.2.2.idx = e.2.1 := fun e he => (hwf e he).1
  have hnone : g.filterNode n.idx = none := filterNode_none_of_fresh hwf1 hfreshn
  refine ⟨?_, ?_, ?_⟩
  · intro e he
    rcases (mem_entries_insert hfreshn e).mp he with rfl | hold
    · exact ⟨rfl, rfl⟩
    · exact hwf e hold
  · intro e he i hi
    have hresolve : (∀ i' ∈ e.2.2.inputs, ∃ m, g.filterNode i' = some m) := by
      rcases (mem_entries_insert hfreshn e).mp he with rfl | hold
      · exact hresn
      · exact hres e hold
    obtain ⟨m, hm⟩ := hresolve i hi
    have hne : i ≠ n.idx := by
      intro hcontra; rw [hcontra, hnone] at hm; cases hm
    have hnd : ({ n with bucket := nb } : Node).idx = n.idx := rfl
    exact ⟨m, by rw [filterNode_insert_ne hfreshn hnd hne]; exact hm⟩
  · intro e he
    have hnd : ({ n with bucket := nb } : Node).idx = n.idx := rfl
    rcases (mem_entries_insert hfreshn e).mp he with rfl | hold
    · exact nodeBucketOk_insert_stable hwf1 hfreshn hnd hresn hoknew
    · exact nodeBucketOk_insert_stable hwf1 hfreshn hnd (hres e hold) (hok e hold)

theorem assignLoop_ok_inv :
    ∀ (rest : List Node) (g gout : NodeGraph),
      (∀ e ∈ g.entries, e.2.2.idx = e.2.1 ∧ e.2.2.bucket = e.1) →
      (∀ e ∈ g.entries, ∀ i ∈ e.2.2.inputs, ∃ m, g.filterNode i = some m) →
      (∀ e ∈ g.entries, nodeBucketOk g e.2.2) →
      (∀ n ∈ rest, ∀ e ∈ g.entries, e.2.1 ≠ n.idx) →
      (rest.map Node.idx).Nodup →
      assignLoop g rest = .ok gout →
      (∀ e ∈ gout.entries, e.2.2.idx = e.2.1 ∧ e.2.2.bucket = e.1) ∧
      (∀ e ∈ gout.entries, nodeBucketOk gout e.2.2) := by
  intro rest
  induction rest with
  | nil =>
    intro g gout hwf _ hok _ _ h
    injection h with h
    subst h
    exact ⟨hwf, hok⟩
  | cons n rest ih =>
    intro g gout hwf hres hok hfresh hnodup h
    obtain ⟨ni, nk, nis, nind, nod, nbk⟩ := n
    simp only [assignLoop] at h
    cases hc : collectPrevBuckets g nis with
    | error e => simp [hc] at h
    | ok bs =>
      simp only [hc] at h
      have hfreshn : ∀ e ∈ g.entries, e.2.1 ≠ ni :=
        fun e he => hfresh ⟨ni, nk, nis, nind, nod, nbk⟩ (by simp) e he
      have hresn : ∀ i ∈ nis, ∃ m, g.filterNode i = some m := collectPrev_ok_resolved hc
      have hbuckets : inputBucketsList g nis = bs := collectPrev_ok_buckets hc
      have hnodup2 : (ni :: rest.map Node.idx).Nodup := by simpa using hnodup
      have hnodup' : (rest.map Node.idx).Nodup := (List.nodup_cons.mp hnodup2).2
      have hnmem : ni ∉ rest.map Node.idx := (List.nodup_cons.mp hnodup2).1
      have hfreshStep : ∀ (nb : Option Nat) (nk' : OpKind), ∀ n2 ∈ rest,
          ∀ e ∈ (g.insert nb ni ⟨ni, nk', nis, nind, nod, nb⟩).entries, e.2.1 ≠ n2.idx := by
        intro nb nk' n2 hn2 e he
        rcases (mem_entries_insert hfreshn e).mp he with rfl | hold
        · show ni ≠ n2.idx
          intro hcontra
          exact hnmem (by rw [hcontra]; exact List.mem_map.mpr ⟨n2, hn2, rfl⟩)
        · exact hfresh n2 (by simp [hn2]) e hold
      cases nk with
      | input =>
        have hoknew : nodeBucketOk g ⟨ni, .input, nis, nind, nod, some 0⟩ := by
          unfold nodeBucketOk
          simp [OpKind.is_input, OpKind.is_const, OpKind.is_poly, OpKind.is_lookup]
        obtain ⟨hwf', hres', hok'⟩ :=
          insert_preserves_inv g ⟨ni, .input, nis, nind, nod, nbk⟩ (some 0)
            hwf hres hok hfreshn hresn hoknew
        exact ih _ gout hwf' hres' hok' (hfreshStep _ _) hnodup' h
      | const =>
        have hoknew : nodeBucketOk g ⟨ni, .const, nis, nind, nod, none⟩ := by
          unfold nodeBucketOk
          simp [OpKind.is_input, OpKind.is_const, OpKind.is_poly, OpKind.is_lookup]
        obtain ⟨hwf', hres', hok'⟩ :=
          insert_preserves_inv g ⟨ni, .const, nis, nind, nod, nbk⟩ none
            hwf hres hok hfreshn hresn hoknew
        exact ih _ gout hwf' hres' hok' (hfreshStep _ _) hnodup' h
      | poly op =>
        cases hm : maxOpt bs with
        | none => simp [hm] at h
        | some b0 =>
          simp only [hm] at h
          have hoknew : nodeBucketOk g ⟨ni, .poly op, nis, nind, nod, some b0⟩ := by
            unfold nodeBucketOk nonConstInputBuckets
            simp only [OpKind.is_input, OpKind.is_const, OpKind.is_poly, OpKind.is_lookup]
            refine ⟨by simp, by simp, ?_, by simp⟩
            intro _
            show some b0 = maxOpt (inputBucketsList g nis)
            rw [hbuckets, hm]
          obtain ⟨hwf', hres', hok'⟩ :=
            insert_preserves_inv g ⟨ni, .poly op, nis, nind, nod, nbk⟩ (some b0)
              hwf hres hok hfreshn hresn hoknew
          exact ih _ gout hwf' hres' hok' (hfreshStep _ _) hnodup' h
      | lookup op =>
        cases hm : maxOpt bs with
        | none => simp [hm] at h
        | some b0 =>
          simp only [hm] at h
          have hoknew : nodeBucketOk g ⟨ni, .lookup op, nis, nind, nod, some (b0 + 1)⟩ := by
            unfold nodeBucketOk nonConstInputBuckets
            simp only [OpKind.is_input, OpKind.is_const, OpKind.is_poly, OpKind.is_lookup]
            refine ⟨by simp, by simp, by simp, ?_⟩
            intro _
            constructor
            · show some (b0 + 1) = Option.map (· + 1) (maxOpt (inputBucketsList g nis))
              rw [hbuckets, hm]; rfl
            · intro x hx y hy
              have hxb : x ≤ b0 := by
                apply maxOpt_le_of_mem _ b0 hm
                rw [← hbuckets]
                exact hx
              have : b0 + 1 = y := by
                simpa using hy
              omega
          obtain ⟨hwf', hres', hok'⟩ :=
            insert_preserves_inv g ⟨ni, .lookup op, nis, nind, nod, nbk⟩ (some (b0 + 1))
              hwf hres hok hfreshn hresn hoknew
          exact ih _ gout hwf' hres' hok' (hfreshStep _ _) hnodup' h
      | unknown => simp at h

/-! ### Claim C1 -/

/-- **C1.** For every node graph accepted by `assign_execution_buckets`
(nodes presented in ascending index order with distinct indices, as the
`BTreeMap` of `Model::new` guarantees), the resulting bucket assignment
satisfies: every `Input` node has bucket 0, every `Const` node has bucket
`none`, every `Poly` node's bucket equals the maximum bucket among its
non-const inputs, and every `Lookup` node's bucket equals that maximum
plus 1, strictly greater than every non-const input's bucket. -/
theorem c1_bucket_assignment_contract (nodes : List Node) (g : NodeGraph)
    (hnodup : (nodes.map Node.idx).Nodup)
    (h : assign_execution_buckets nodes = .ok g) :
    ∀ e ∈ g.entries, nodeBucketOk g e.2.2 := by
  have hempty : (⟨[]⟩ : NodeGraph).entries = [] := rfl
  exact (assignLoop_ok_inv nodes ⟨[]⟩ g
    (by intro e he; rw [hempty] at he; cases he)
    (by intro e he; rw [hempty] at he; cases he)
    (by intro e he; rw [hempty] at he; cases he)
    (by intro n _ e he; rw [hempty] at he; cases he)
    hnodup h).2

/-- A four-node graph `Input(0) → Poly(2)` (also reading `Const(1)`)
`→ Lookup(3)` used to exercise the scheduler concretely. -/
def c1Nodes : List Node := [
  ⟨0, .input, [], [], [3], none⟩,
  ⟨1, .const, [], [], [3], none⟩,
  ⟨2, .poly 0, [0, 1], [[3], [3]], [3], none⟩,
  ⟨3, .lookup 4, [2], [[3]], [3], none⟩ ]

/-- The bucketed graph the scheduler produces for `c1Nodes`. -/
def c1Graph : NodeGraph :=
  ⟨[(none, [(1, ⟨1, .const, [], [], [3], none⟩)]),
    (some 0, [(0, ⟨0, .input, [], [], [3], some 0⟩),
              (2, ⟨2, .poly 0, [0, 1], [[3], [3]], [3], some 0⟩)]),
    (some 1, [(3, ⟨3, .lookup 4, [2], [[3]], [3], some 1⟩)])]⟩

/-- Witness for C1: the hypotheses hold for `c1Nodes` and the contract
follows at that concrete input. -/
theorem c1_witness :
    (c1Nodes.map Node.idx).Nodup ∧
      assign_execution_buckets c1Nodes = .ok c1Graph ∧
      ∀ e ∈ c1Graph.entries, nodeBucketOk c1Graph e.2.2 :=
  ⟨by decide, by decide,
    c1_bucket_assignment_contract c1Nodes c1Graph (by decide) (by decide)⟩

/-! ### Claim C2 -/

theorem assignLoop_append (g : NodeGraph) (xs ys : List Node) :
    assignLoop g (xs ++ ys) =
      match assignLoop g xs with
      | .ok g' => assignLoop g' ys
      | .err e => .err e
      | .panic => .panic := by
  induction xs generalizing g with
  | nil => simp [assignLoop]
  | cons n rest ih =>
    simp only [List.cons_append, assignLoop]
    cases hcp : collectPrevBuckets g n.inputs with
    | error e => rfl
    | ok bs =>
      dsimp only
      cases hk : n.opkind with
      | input => exact ih _
      | const => exact ih _
      | poly op =>
        dsimp only
        cases hmx : maxOpt bs with
        | none => rfl
        | some b => exact ih _
      | lookup op =>
        dsimp only
        cases hmx : maxOpt bs with
        | none => rfl
        | some b => exact ih _
      | unknown => rfl

theorem collectPrev_error_of_firstUnbucketed {g : NodeGraph} :
    ∀ {is : List Nat} {j : Nat}, firstUnbucketed g is = some j →
      collectPrevBuckets g is = .error (.MissingNode j) := by
  intro is
  induction is with
  | nil => intro j h; cases h
  | cons i rest ih =>
    intro j h
    simp only [firstUnbucketed] at h
    simp only [collectPrevBuckets]
    cases hi : g.filterNode i with
    | none =>
      simp only [hi] at h
      injection h with h
      subst h
      rfl
    | some m =>
      simp only [hi] at h
      simp only [hi]
      by_cases hc : m.opkind.is_const = true
      · rw [if_pos hc] at h ⊢
        exact ih h
      · rw [if_neg hc] at h ⊢
        cases hb : m.bucket with
        | none =>
          simp only [hb] at h
          injection h with h
          subst h
          rfl
        | some b =>
          simp only [hb] at h
          rw [ih h]

/-- **C2.** If, while assigning buckets in index order, a non-`Input`,
non-`Const` node has a non-const input with no bucket assigned yet (a
dangling or forward reference), `assign_execution_buckets` fails with
`MissingNode` carrying that input's index, and no `NodeGraph` is
produced. -/
theorem c2_missing_node (pre : List Node) (n : Node) (post : List Node) (g : NodeGraph) (j : Nat)
    (hpre : assignLoop ⟨[]⟩ pre = .ok g)
    (_hki : n.opkind.is_input = false) (_hkc : n.opkind.is_const = false)
    (hmiss : firstUnbucketed g n.inputs = some j) :
    assign_execution_buckets (pre ++ n :: post) = .err (.MissingNode j) ∧
      ∀ g', assign_execution_buckets (pre ++ n :: post) ≠ .ok g' := by
  have herr : collectPrevBuckets g n.inputs = .error (.MissingNode j) :=
    collectPrev_error_of_firstUnbucketed hmiss
  have hmain : assign_execution_buckets (pre ++ n :: post) = .err (.MissingNode j) := by
    unfold assign_execution_buckets
    rw [assignLoop_append]
    simp only [hpre, assignLoop, herr]
  exact ⟨hmain, fun g' hcontra => by rw [hmain] at hcontra; cases hcontra⟩

/-- The prefix for the C2 witness: a lone input node. -/
def c2Pre : List Node := [⟨0, .input, [], [], [3], none⟩]

/-- A poly node whose single input refers to index 5, which no node
produces. -/
def c2Node : Node := ⟨2, .poly 0, [5], [[3]], [3], none⟩

/-- The bucketed graph after scheduling `c2Pre`. -/
def c2Graph : NodeGraph := ⟨[(some 0, [(0, ⟨0, .input, [], [], [3], some 0⟩)])]⟩

/-- Witness for C2: the dangling reference at index 5 makes the scheduler
fail with `MissingNode 5` at a concrete input. -/
theorem c2_witness :
    assignLoop ⟨[]⟩ c2Pre = .ok c2Graph ∧
      firstUnbucketed c2Graph c2Node.inputs = some 5 ∧
      assign_execution_buckets (c2Pre ++ c2Node :: []) = .err (.MissingNode 5) :=
  ⟨by decide, by decide,
    (c2_missing_node c2Pre c2Node [] c2Graph 5 (by decide) (by decide) (by decide)
      (by decide)).1⟩

/-! ### Claim C10 -/

/-- Whether some node of the list is a `Const` node with the given
index. -/
def isConstIdx (nodes : List Node) (i : Nat) : Bool :=
  nodes.any (fun m => m.idx == i && m.opkind.is_const)

/-- Whether a node has at least one input that is not a `Const` node of
the list (a dangling input also counts as non-const). -/
def hasNonConstInput (nodes : List Node) (n : Node) : Bool :=
  n.inputs.any (fun i => !isConstIdx nodes i)

/-- The precondition under which the scheduler never panics: every `Poly`
and every `Lookup` node has at least one non-`Const` input. -/
def schedPrecond (nodes : List Node) : Bool :=
  nodes.all (fun n => !(n.opkind.is_poly || n.opkind.is_lookup) || hasNonConstInput nodes n)

theorem insertInner_mem {idx : Nat} {nd : Node} :
    ∀ {inner : List (Nat × Node)} {q : Nat × Node}, q ∈ insertInner idx nd inner →
      q ∈ inner ∨ q = (idx, nd) := by
  intro inner
  induction inner with
  | nil =>
    intro q hq
    simp only [insertInner, List.mem_singleton] at hq
    exact Or.inr hq
  | cons p rest ih =>
    intro q hq
    obtain ⟨k, m⟩ := p
    simp only [insertInner] at hq
    by_cases he : idx = k
    · rw [if_pos he] at hq
      rcases List.mem_cons.mp hq with rfl | hmem
      · exact Or.inr rfl
      · exact Or.inl (by simp [hmem])
    · rw [if_neg he] at hq
      by_cases hlt : idx < k
      · rw [if_pos hlt] at hq
        rcases List.mem_cons.mp hq with rfl | hmem
        · exact Or.inr rfl
        · exact Or.inl hmem
      · rw [if_neg hlt] at hq
        rcases List.mem_cons.mp hq with rfl | hmem
        · exact Or.inl (by simp)
        · rcases ih hmem with h | h
          · exact Or.inl (by simp [h])
          · exact Or.inr h

theorem mem_entries_insert_weak {b : Option Nat} {idx : Nat} {nd : Node} :
    ∀ {bks : List (Option Nat × List (Nat × Node))} {e : Option Nat × Nat × Node},
      e ∈ (insertBuckets b idx nd bks).flatMap (fun p => p.2.map (fun q => (p.1, q.1, q.2))) →
      e ∈ bks.flatMap (fun p => p.2.map (fun q => (p.1, q.1, q.2))) ∨ e.2 = (idx, nd) := by
  intro bks
  induction bks with
  | nil =>
    intro e he
    simp only [insertBuckets, List.flatMap_cons, List.flatMap_nil, List.append_nil,
      List.map_cons, List.map_nil, List.mem_singleton] at he
    subst he
    exact Or.inr rfl
  | cons p rest ih =>
    intro e he
    obtain ⟨k, inner⟩ := p
    simp only [insertBuckets] at he
    by_cases hbk : b = k
    · rw [if_pos hbk] at he
      simp only [List.flatMap_cons, List.mem_append, List.mem_map] at he ⊢
      rcases he with ⟨q, hq, rfl⟩ | hrest
      · rcases insertInner_mem hq with hqi | rfl
        · exact Or.inl (Or.inl ⟨q, hqi, rfl⟩)
        · exact Or.inr rfl
      · exact Or.inl (Or.inr hrest)
    · rw [if_neg hbk] at he
      by_cases hlt : bucketLt b k = true
      · rw [if_pos hlt] at he
        simp only [List.flatMap_cons, List.mem_append, List.mem_map, List.map_cons,
          List.map_nil, List.mem_singleton] at he ⊢
        rcases he with rfl | hold
        · exact Or.inr rfl
        · exact Or.inl hold
      · rw [if_neg hlt] at he
        simp only [List.flatMap_cons, List.mem_append] at he ⊢
        rcases he with hin | hm
        · exact Or.inl (Or.inl hin)
        · rcases ih hm with h | h
          · exact Or.inl (Or.inr h)
          · exact Or.inr h

theorem mem_flatten_insert {g : NodeGraph} {b : Option Nat} {idx : Nat} {nd : Node}
    {m : Node} (hm : m ∈ (g.insert b idx nd).flatten) :
    m ∈ g.flatten ∨ m = nd := by
  simp only [NodeGraph.flatten, List.mem_map] at hm ⊢
  obtain ⟨e, he, rfl⟩ := hm
  rcases mem_entries_insert_weak he with hold | h2
  · exact Or.inl ⟨e, hold, rfl⟩
  · right
    rw [show e.2.2 = (e.2).2 from rfl, h2]

theorem assignLoop_no_panic (nodes0 : List Node) (hP : schedPrecond nodes0 = true) :
    ∀ (rest : List Node) (g : NodeGraph),
      (∀ n ∈ rest, n ∈ nodes0) →
      (∀ m ∈ g.flatten, ∃ orig ∈ nodes0, orig.idx = m.idx ∧ orig.opkind = m.opkind) →
      assignLoop g rest ≠ .panic := by
  intro rest
  induction rest with
  | nil =>
    intro g _ _ h
    cases h
  | cons n rest ih =>
    intro g hsub hkind h
    obtain ⟨ni, nk, nis, nind, nod, nbk⟩ := n
    have hn0 : (⟨ni, nk, nis, nind, nod, nbk⟩ : Node) ∈ nodes0 := hsub _ (by simp)
    simp only [assignLoop] at h
    cases hc : collectPrevBuckets g nis with
    | error e => simp [hc] at h
    | ok bs =>
      simp only [hc] at h
      have hkindStep : ∀ (nb : Option Nat),
          ∀ m ∈ (g.insert nb ni ⟨ni, nk, nis, nind, nod, nb⟩).flatten,
            ∃ orig ∈ nodes0, orig.idx = m.idx ∧ orig.opkind = m.opkind := by
        intro nb m hm
        rcases mem_flatten_insert hm with hold | rfl
        · exact hkind m hold
        · exact ⟨⟨ni, nk, nis, nind, nod, nbk⟩, hn0, rfl, rfl⟩
      have hallconst : maxOpt bs = none →
          hasNonConstInput nodes0 ⟨ni, nk, nis, nind, nod, nbk⟩ = true → False := by
        intro hm hhas
        have hbs : bs = [] := by
          cases bs with
          | nil => rfl
          | cons x xs =>
            obtain ⟨y, hy⟩ := maxOpt_isSome_of_mem (List.mem_cons_self x xs)
            rw [hy] at hm
            cases hm
        subst hbs
        have hconsts := collectPrev_ok_nil_const hc
        obtain ⟨i, hi, hnc⟩ := List.any_eq_true.mp hhas
        obtain ⟨m, hfm, hmc⟩ := hconsts i hi
        have hmem : m ∈ g.flatten := List.mem_of_find?_eq_some hfm
        have hidx : m.idx = i := by
          have := List.find?_some hfm
          simpa using this
        obtain ⟨orig, horig, hoidx, hokind⟩ := hkind m hmem
        have : isConstIdx nodes0 i = true := by
          apply List.any_eq_true.mpr
          refine ⟨orig, horig, ?_⟩
          simp [hoidx, hidx, hokind, hmc]
        simp [this] at hnc
      cases nk with
      | input => exact ih _ (fun n2 hn2 => hsub n2 (by simp [hn2])) (hkindStep _) h
      | const => exact ih _ (fun n2 hn2 => hsub n2 (by simp [hn2])) (hkindStep _) h
      | poly op =>
        cases hm : maxOpt bs with
        | none =>
          refine hallconst hm ?_
          have := List.all_eq_true.mp hP _ hn0
          simpa [OpKind.is_poly, OpKind.is_lookup] using this
        | some b0 =>
          simp only [hm] at h
          exact ih _ (fun n2 hn2 => hsub n2 (by simp [hn2])) (hkindStep _) h
      | lookup op =>
        cases hm : maxOpt bs with
        | none =>
          refine hallconst hm ?_
          have := List.all_eq_true.mp hP _ hn0
          simpa [OpKind.is_poly, OpKind.is_lookup] using this
        | some b0 =>
          simp only [hm] at h
          exact ih _ (fun n2 hn2 => hsub n2 (by simp [hn2])) (hkindStep _) h
      | unknown => simp at h

/-- A two-node graph `Const(0) → Poly(1)` whose only `Poly` node has only
`Const` inputs. -/
def c10Nodes : List Node := [
  ⟨0, .const, [], [], [3], none⟩,
  ⟨1, .poly 0, [0], [[3]], [3], none⟩ ]

/-- **C10.** `assign_execution_buckets` is total only under the
precondition that every `Poly` and every `Lookup` node has at least one
non-`Const` input: under that precondition the scheduler never panics,
while for a `Poly` node all of whose inputs are `Const` nodes the
`unwrap` on the empty maximum panics instead of returning a structured
error, as the concrete graph `c10Nodes` shows. -/
theorem c10_total_only_without_all_const_inputs :
    (∀ nodes : List Node, schedPrecond nodes = true →
      assign_execution_buckets nodes ≠ .panic) ∧
    assign_execution_buckets c10Nodes = .panic ∧
    (∃ n ∈ c10Nodes, n.opkind.is_poly = true ∧
      ∀ i ∈ n.inputs, isConstIdx c10Nodes i = true) := by
  refine ⟨?_, by decide, by decide⟩
  intro nodes hP
  unfold assign_execution_buckets
  apply assignLoop_no_panic nodes hP nodes ⟨[]⟩ (fun n hn => hn)
  intro m hm
  simp [NodeGraph.flatten, NodeGraph.entries] at hm

/-- A well-formed variant where the poly node also reads the input node. -/
def c10GoodNodes : List Node := [
  ⟨0, .input, [], [], [3], none⟩,
  ⟨1, .const, [], [], [3], none⟩,
  ⟨2, .poly 0, [0, 1], [[3], [3]], [3], none⟩ ]

/-- Witness for C10: the precondition holds for `c10GoodNodes` and the
no-panic half of the theorem applies there. -/
theorem c10_witness :
    schedPrecond c10GoodNodes = true ∧
      assign_execution_buckets c10GoodNodes ≠ .panic :=
  ⟨by decide, c10_total_only_without_all_const_inputs.1 c10GoodNodes (by decide)⟩

/-! ### Claim C6 -/

theorem fuse_fold_char (p : Bool) (gk : List Nat) :
    ∀ (ins : List Node) (st : FuseState),
      (ins.foldl (fuseStep p gk) st).outList =
        st.outList ++ specBindSeq p st.adviceIdx st.fixedIdx (specExternalDedup gk st.seen ins) := by
  intro ins
  induction ins with
  | nil => intro st; simp [specExternalDedup, specBindSeq]
  | cons f rest ih =>
    intro st
    rw [List.foldl_cons]
    by_cases hgk : f.idx ∈ gk
    · have hstep : fuseStep p gk st f = st := by simp [fuseStep, hgk]
      have hded : specExternalDedup gk st.seen (f :: rest) =
          specExternalDedup gk st.seen rest := by
        simp [specExternalDedup, hgk]
      rw [hstep, hded]
      exact ih st
    · by_cases hseen : f.idx ∈ st.seen
      · have hstep : fuseStep p gk st f = st := by simp [fuseStep, hgk, hseen]
        have hded : specExternalDedup gk st.seen (f :: rest) =
            specExternalDedup gk st.seen rest := by
          simp [specExternalDedup, hgk, hseen]
        rw [hstep, hded]
        exact ih st
      · have hded : specExternalDedup gk st.seen (f :: rest) =
            f :: specExternalDedup gk (st.seen ++ [f.idx]) rest := by
          simp [specExternalDedup, hgk, hseen]
        by_cases hcp : (f.opkind.is_const && p) = true
        · have hstep : fuseStep p gk st f =
              ⟨st.seen ++ [f.idx], st.adviceIdx, st.fixedIdx + 1,
                st.outList ++ [(f.idx, .fixed st.fixedIdx f.out_dims)]⟩ := by
            simp [fuseStep, hgk, hseen, hcp]
          have hbind : specBindSeq p st.adviceIdx st.fixedIdx
              (f :: specExternalDedup gk (st.seen ++ [f.idx]) rest) =
              (f.idx, ColumnB.fixed st.fixedIdx f.out_dims) ::
                specBindSeq p st.adviceIdx (st.fixedIdx + 1)
                  (specExternalDedup gk (st.seen ++ [f.idx]) rest) := by
            simp [specBindSeq, hcp]
          rw [hstep, hded, ih, hbind]
          simp
        · have hstep : fuseStep p gk st f =
              ⟨st.seen ++ [f.idx], st.adviceIdx + 1, st.fixedIdx,
                st.outList ++ [(f.idx, .advice st.adviceIdx f.out_dims)]⟩ := by
            simp [fuseStep, hgk, hseen, hcp]
          have hbind : specBindSeq p st.adviceIdx st.fixedIdx
              (f :: specExternalDedup gk (st.seen ++ [f.idx]) rest) =
              (f.idx, ColumnB.advice st.adviceIdx f.out_dims) ::
                specBindSeq p (st.adviceIdx + 1) st.fixedIdx
                  (specExternalDedup gk (st.seen ++ [f.idx]) rest) := by
            simp [specBindSeq, hcp]
          rw [hstep, hded, ih, hbind]
          simp

theorem specBindSeq_map_fst (p : Bool) :
    ∀ (l : List Node) (a fx : Nat),
      (specBindSeq p a fx l).map Prod.fst = l.map Node.idx := by
  intro l
  induction l with
  | nil => intro a fx; rfl
  | cons f rest ih =>
    intro a fx
    simp only [specBindSeq]
    by_cases hcp : (f.opkind.is_const && p) = true
    · rw [if_pos hcp]; simp [ih]
    · rw [if_neg hcp]; simp [ih]

theorem specExternalDedup_nodup (gk : List Nat) :
    ∀ (ins : List Node) (seen : List Nat),
      ((specExternalDedup gk seen ins).map Node.idx).Nodup ∧
        ∀ x ∈ (specExternalDedup gk seen ins).map Node.idx, x ∉ seen := by
  intro ins
  induction ins with
  | nil => intro seen; exact ⟨List.nodup_nil, by intro x hx; cases hx⟩
  | cons f rest ih =>
    intro seen
    by_cases hgk : f.idx ∈ gk
    · rw [show specExternalDedup gk seen (f :: rest) = specExternalDedup gk seen rest from by
        simp [specExternalDedup, hgk]]
      exact ih seen
    · by_cases hseen : f.idx ∈ seen
      · rw [show specExternalDedup gk seen (f :: rest) = specExternalDedup gk seen rest from by
          simp [specExternalDedup, hgk, hseen]]
        exact ih seen
      · rw [show specExternalDedup gk seen (f :: rest) =
            f :: specExternalDedup gk (seen ++ [f.idx]) rest from by
          simp [specExternalDedup, hgk, hseen]]
        obtain ⟨hnd, hnotin⟩ := ih (seen ++ [f.idx])
        constructor
        · simp only [List.map_cons, List.nodup_cons]
          refine ⟨fun hcontra => ?_, hnd⟩
          have := hnotin f.idx hcontra
          simp at this
        · intro x hx
          simp only [List.map_cons, List.mem_cons] at hx
          rcases hx with rfl | hx
          · exact hseen
          · intro hxs
            exact hnotin x hx (List.mem_append.mpr (Or.inl hxs))

/-- **C6.** Within one bucket's fusion group, the external input
bindings produced by `conf_poly_ops` are exactly: the group's inputs
filtered to those outside the group, deduplicated by node index in
first-encountered order (`specExternalDedup`), each bound to one column
slot — a `Const` input to the next fixed slot when params are public and
any other input to the next advice slot, the two counters advancing
independently (`specBindSeq`) — and the bound indices are pairwise
distinct, so each distinct external input consumes exactly one slot. -/
theorem c6_fusion_external_bindings (g : NodeGraph) (p : Bool)
    (polyNodes : List (Nat × Node)) (binds : List (Nat × ColumnB)) (out : ColumnB)
    (h : conf_poly_ops g p polyNodes = .ok (.polyC binds out)) :
    ∃ pairs, buildInputNodes g polyNodes = .ok pairs ∧
      binds = specBindSeq p 0 0
        (specExternalDedup (polyNodes.map Prod.fst) [] (pairs.flatMap (fun q => q.2))) ∧
      (binds.map Prod.fst).Nodup := by
  simp only [conf_poly_ops] at h
  cases hb : buildInputNodes g polyNodes with
  | err e => simp [hb] at h
  | panic => simp [hb] at h
  | ok pairs =>
    simp only [hb] at h
    cases hmx : maxOpt (polyNodes.map (fun p => p.1)) with
    | none => simp [hmx] at h
    | some maxKey =>
      simp only [hmx] at h
      cases hf : g.filterNode maxKey with
      | none => simp [hf] at h
      | some outNode =>
        simp only [hf] at h
        simp only [Res.ok.injEq, NodeConfigE.polyC.injEq] at h
        obtain ⟨hbinds, _⟩ := h
        refine ⟨pairs, rfl, ?_, ?_⟩
        · rw [← hbinds]
          have := fuse_fold_char p (polyNodes.map (fun p => p.1))
            (pairs.flatMap (fun q => q.2)) ⟨[], 0, 0, []⟩
          simpa [inputs_to_layer] using this
        · rw [← hbinds]
          have hchar := fuse_fold_char p (polyNodes.map (fun p => p.1))
            (pairs.flatMap (fun q => q.2)) ⟨[], 0, 0, []⟩
          simp only [inputs_to_layer] at *
          rw [hchar]
          simp only [List.nil_append, specBindSeq_map_fst]
          exact (specExternalDedup_nodup _ _ _).1

/-- Scenario A of the spec:
`Input(0) -> Poly(add, const=[1]) -> Poly(mul, const=[2])`, as the node
list `Input(0), Const(1), Poly(2)[0,1], Const(3), Poly(4)[2,3]`. -/
def scenarioANodes : List Node := [
  ⟨0, .input, [], [], [3], none⟩,
  ⟨1, .const, [], [], [3], none⟩,
  ⟨2, .poly 0, [0, 1], [[3], [3]], [3], none⟩,
  ⟨3, .const, [], [], [3], none⟩,
  ⟨4, .poly 1, [2, 3], [[3], [3]], [3], none⟩ ]

/-- The bucketed graph the scheduler produces for `scenarioANodes`: both
`Poly` nodes share bucket 0. -/
def scenarioAGraph : NodeGraph :=
  ⟨[(none, [(1, ⟨1, .const, [], [], [3], none⟩), (3, ⟨3, .const, [], [], [3], none⟩)]),
    (some 0, [(0, ⟨0, .input, [], [], [3], some 0⟩),
              (2, ⟨2, .poly 0, [0, 1], [[3], [3]], [3], some 0⟩),
              (4, ⟨4, .poly 1, [2, 3], [[3], [3]], [3], some 0⟩)])]⟩

/-- The fusion group of bucket 0 of `scenarioAGraph`. -/
def scenarioAPolys : List (Nat × Node) :=
  [(2, ⟨2, .poly 0, [0, 1], [[3], [3]], [3], some 0⟩),
   (4, ⟨4, .poly 1, [2, 3], [[3], [3]], [3], some 0⟩)]

/-- Witness for C6: the fuser's bindings for scenario A's bucket-0 group
satisfy the characterization at a concrete input. -/
theorem c6_witness :
    ∃ pairs, buildInputNodes scenarioAGraph scenarioAPolys = .ok pairs ∧
      [(0, ColumnB.advice 0 [3]), (1, ColumnB.fixed 0 [3]), (3, ColumnB.fixed 1 [3])] =
        specBindSeq true 0 0
          (specExternalDedup (scenarioAPolys.map Prod.fst) [] (pairs.flatMap (fun q => q.2))) ∧
      (([(0, ColumnB.advice 0 [3]), (1, ColumnB.fixed 0 [3]),
          (3, ColumnB.fixed 1 [3])] : List (Nat × ColumnB)).map Prod.fst).Nodup :=
  c6_fusion_external_bindings scenarioAGraph true scenarioAPolys
    [(0, ColumnB.advice 0 [3]), (1, ColumnB.fixed 0 [3]), (3, ColumnB.fixed 1 [3])]
    (ColumnB.advice 1 [3]) (by decide)

/-! ### Claim C5 -/

theorem maxOpt_mem : ∀ {l : List Nat} {b : Nat}, maxOpt l = some b → b ∈ l := by
  intro l
  induction l with
  | nil => intro b h; cases h
  | cons x xs ih =>
    intro b h
    simp only [maxOpt] at h
    cases hxs : maxOpt xs with
    | none =>
      rw [hxs] at h
      injection h with h
      subst h
      exact List.mem_cons_self _ _
    | some m =>
      rw [hxs] at h
      injection h with h
      subst h
      rcases max_choice x m with hx | hm
      · rw [hx]; exact List.mem_cons_self _ _
      · rw [hm]; exact List.mem_cons_of_mem _ (ih hxs)

theorem assocFind_insert_self {α β : Type} [DecidableEq α] (k : α) (v : β) :
    ∀ l, assocFind k (assocInsert k v l) = some v := by
  intro l
  induction l with
  | nil => simp [assocInsert, assocFind]
  | cons p rest ih =>
    obtain ⟨k', v'⟩ := p
    simp only [assocInsert]
    by_cases he : k = k'
    · rw [if_pos he]; simp [assocFind]
    · rw [if_neg he]; simp only [assocFind, if_neg he]; exact ih

theorem assocFind_insert_ne {α β : Type} [DecidableEq α] {q k : α} (hne : q ≠ k) (v : β) :
    ∀ l, assocFind q (assocInsert k v l) = assocFind q l := by
  intro l
  induction l with
  | nil => simp [assocInsert, assocFind, if_neg hne]
  | cons p rest ih =>
    obtain ⟨k', v'⟩ := p
    simp only [assocInsert]
    by_cases he : k = k'
    · rw [if_pos he]
      subst he
      simp [assocFind, if_neg hne]
    · rw [if_neg he]
      simp only [assocFind]
      by_cases hq : q = k'
      · rw [if_pos hq, if_pos hq]
      · rw [if_neg hq, if_neg hq]; exact ih

theorem confNonOpList_untouched :
    ∀ (l : List (Nat × Node)) (results r : List (Nat × NodeConfigE)),
      confNonOpList results l = .ok r →
      ∀ k, k ∉ l.map Prod.fst → assocFind k r = assocFind k results := by
  intro l
  induction l with
  | nil =>
    intro results r h k _
    injection h with h
    rw [h]
  | cons p rest ih =>
    intro results r h k hk
    obtain ⟨i, n⟩ := p
    simp only [confNonOpList] at h
    cases hcn : conf_non_op_node n with
    | ok c =>
      rw [hcn] at h
      have hki : k ≠ i := by
        intro hcontra
        exact hk (by simp [hcontra])
      rw [ih _ _ h k (by intro hcontra; exact hk (by simp [hcontra]))]
      exact assocFind_insert_ne hki c results
    | err e => rw [hcn] at h; cases h
    | panic => rw [hcn] at h; cases h

theorem confLookupList_untouched :
    ∀ (l : List (Nat × Node)) (results : List (Nat × NodeConfigE)) (tables : Tables)
      (r : List (Nat × NodeConfigE)) (t : Tables),
      confLookupList results tables l = .ok (r, t) →
      ∀ k, k ∉ l.map Prod.fst → assocFind k r = assocFind k results := by
  intro l
  induction l with
  | nil =>
    intro results tables r t h k _
    injection h with h
    rw [show r = results from congrArg Prod.fst h.symm]
  | cons p rest ih =>
    intro results tables r t h k hk
    obtain ⟨i, n⟩ := p
    simp only [confLookupList] at h
    cases hct : conf_table n tables with
    | ok ct =>
      obtain ⟨cfg, tbl⟩ := ct
      rw [hct] at h
      have hki : k ≠ i := by
        intro hcontra
        exact hk (by simp [hcontra])
      rw [ih _ _ _ _ h k (by intro hcontra; exact hk (by simp [hcontra]))]
      exact assocFind_insert_ne hki cfg results
    | err e => rw [hct] at h; cases h
    | panic => rw [hct] at h; cases h

theorem mem_map_fst_filter {p : Nat × Node → Bool} {bnodes : List (Nat × Node)} {k : Nat}
    (hk : k ∉ bnodes.map Prod.fst) : k ∉ (bnodes.filter p).map Prod.fst := by
  intro hcontra
  obtain ⟨q, hq, rfl⟩ := List.mem_map.mp hcontra
  exact hk (List.mem_map.mpr ⟨q, List.mem_of_mem_filter hq, rfl⟩)

theorem configureBucket_untouched
    (g : NodeGraph) (vis : VarVisibility) (bnodes : List (Nat × Node))
    (results : List (Nat × NodeConfigE)) (tables : Tables)
    (r : List (Nat × NodeConfigE)) (t : Tables)
    (h : configureBucket g vis bnodes results tables = .ok (r, t))
    (k : Nat) (hk : k ∉ bnodes.map Prod.fst) :
    assocFind k r = assocFind k results := by
  simp only [configureBucket] at h
  cases hno : confNonOpList results
      (bnodes.filter (fun p => p.2.opkind.is_const || p.2.opkind.is_input)) with
  | err e => simp only [hno] at h; cases h
  | panic => simp only [hno] at h; cases h
  | ok r1 =>
    simp only [hno] at h
    cases hlk : confLookupList r1 tables (bnodes.filter (fun p => p.2.opkind.is_lookup)) with
    | err e => simp only [hlk] at h; cases h
    | panic => simp only [hlk] at h; cases h
    | ok rt2 =>
      obtain ⟨r2, t2⟩ := rt2
      simp only [hlk] at h
      have h1 : assocFind k r1 = assocFind k results :=
        confNonOpList_untouched _ _ _ hno k (mem_map_fst_filter hk)
      have h2 : assocFind k r2 = assocFind k r1 :=
        confLookupList_untouched _ _ _ _ _ hlk k (mem_map_fst_filter hk)
      by_cases hemp : (bnodes.filter (fun p => p.2.opkind.is_poly)).isEmpty = true
      · rw [if_pos hemp] at h
        injection h with h
        rw [show r = r2 from congrArg Prod.fst h.symm, h2, h1]
      · rw [if_neg hemp] at h
        cases hcp : conf_poly_ops g vis.params (bnodes.filter (fun p => p.2.opkind.is_poly)) with
        | err e => simp only [hcp] at h; cases h
        | panic => simp only [hcp] at h; cases h
        | ok cfg =>
          simp only [hcp] at h
          cases hmx : maxOpt ((bnodes.filter (fun p => p.2.opkind.is_poly)).map (fun p => p.1)) with
          | none => simp only [hmx] at h; cases h
          | some maxK =>
            simp only [hmx] at h
            injection h with h
            have hrk : r = assocInsert maxK cfg r2 := congrArg Prod.fst h.symm
            have hkm : k ≠ maxK := by
              intro hcontra
              subst hcontra
              exact mem_map_fst_filter hk (maxOpt_mem hmx)
            rw [hrk, assocFind_insert_ne hkm, h2, h1]

theorem configureLoop_untouched (g : NodeGraph) (vis : VarVisibility) :
    ∀ (bks : List (Option Nat × List (Nat × Node)))
      (results : List (Nat × NodeConfigE)) (tables : Tables)
      (r : List (Nat × NodeConfigE)) (t : Tables) (k : Nat),
      configureLoop g vis results tables bks = .ok (r, t) →
      k ∉ bks.flatMap (fun p => p.2.map Prod.fst) →
      assocFind k r = assocFind k results := by
  intro bks
  induction bks with
  | nil =>
    intro results tables r t k h _
    injection h with h
    rw [show r = results from congrArg Prod.fst h.symm]
  | cons p rest ih =>
    intro results tables r t k h hk
    obtain ⟨b, bnodes⟩ := p
    simp only [configureLoop] at h
    cases hcb : configureBucket g vis bnodes results tables with
    | err e => simp only [hcb] at h; cases h
    | panic => simp only [hcb] at h; cases h
    | ok rt1 =>
      obtain ⟨r1, t1⟩ := rt1
      simp only [hcb] at h
      have hk1 : k ∉ bnodes.map Prod.fst := by
        intro hcontra
        exact hk (by simp only [List.flatMap_cons, List.mem_append]; exact Or.inl hcontra)
      have hk2 : k ∉ rest.flatMap (fun p => p.2.map Prod.fst) := by
        intro hcontra
        exact hk (by simp only [List.flatMap_cons, List.mem_append]; exact Or.inr hcontra)
      rw [ih _ _ _ _ _ h hk2]
      exact configureBucket_untouched g vis bnodes results tables r1 t1 hcb k hk1

theorem configureLoop_append (g : NodeGraph) (vis : VarVisibility) :
    ∀ (xs ys : List (Option Nat × List (Nat × Node)))
      (results : List (Nat × NodeConfigE)) (tables : Tables),
      configureLoop g vis results tables (xs ++ ys) =
        match configureLoop g vis results tables xs with
        | .ok (r, t) => configureLoop g vis r t ys
        | .err e => .err e
        | .panic => .panic := by
  intro xs
  induction xs with
  | nil => intro ys results tables; rfl
  | cons p rest ih =>
    intro ys results tables
    obtain ⟨b, bnodes⟩ := p
    simp only [List.cons_append, configureLoop]
    cases hcb : configureBucket g vis bnodes results tables with
    | err e => rfl
    | panic => rfl
    | ok rt =>
      obtain ⟨r1, t1⟩ := rt
      exact ih ys r1 t1

theorem nodup_keys_eq {l : List (Nat × Node)} (h : (l.map Prod.fst).Nodup)
    {a b : Nat × Node} (ha : a ∈ l) (hb : b ∈ l) (hf : a.1 = b.1) : a = b := by
  induction l with
  | nil => cases ha
  | cons p rest ih =>
    simp only [List.map_cons, List.nodup_cons] at h
    rcases List.mem_cons.mp ha with rfl | ha' <;> rcases List.mem_cons.mp hb with rfl | hb'
    · rfl
    · exact absurd (List.mem_map.mpr ⟨b, hb', hf.symm⟩) h.1
    · exact absurd (List.mem_map.mpr ⟨a, ha', hf⟩) h.1
    · exact ih h.2 ha' hb'

theorem opkind_poly_excl {k : OpKind} (h : k.is_poly = true) :
    (k.is_const || k.is_input) = false ∧ k.is_lookup = false := by
  cases k <;> simp_all [OpKind.is_poly, OpKind.is_const, OpKind.is_input, OpKind.is_lookup]

theorem conf_poly_ops_output_shape (g : NodeGraph) (p : Bool) (polyNodes : List (Nat × Node))
    (cfg : NodeConfigE) (h : conf_poly_ops g p polyNodes = .ok cfg) :
    ∃ maxK outNode binds a, maxOpt (polyNodes.map (fun q => q.1)) = some maxK ∧
      g.filterNode maxK = some outNode ∧
      cfg = .polyC binds (.advice a outNode.out_dims) := by
  simp only [conf_poly_ops] at h
  cases hb : buildInputNodes g polyNodes with
  | err e => simp [hb] at h
  | panic => simp [hb] at h
  | ok pairs =>
    simp only [hb] at h
    cases hmx : maxOpt (polyNodes.map (fun p => p.1)) with
    | none => simp [hmx] at h
    | some maxKey =>
      simp only [hmx] at h
      cases hf : g.filterNode maxKey with
      | none => simp [hf] at h
      | some outNode =>
        simp only [hf] at h
        injection h with h
        exact ⟨maxKey, outNode, _, _, rfl, hf, h.symm⟩

theorem configureBucket_poly_char
    (g : NodeGraph) (vis : VarVisibility) (bnodes : List (Nat × Node))
    (results : List (Nat × NodeConfigE)) (tables : Tables)
    (r : List (Nat × NodeConfigE)) (t : Tables)
    (h : configureBucket g vis bnodes results tables = .ok (r, t))
    (hnodup : (bnodes.map Prod.fst).Nodup)
    (hne : (bnodes.filter (fun p => p.2.opkind.is_poly)).isEmpty = false) :
    ∃ maxK cfg,
      maxOpt ((bnodes.filter (fun p => p.2.opkind.is_poly)).map (fun q => q.1)) = some maxK ∧
      conf_poly_ops g vis.params (bnodes.filter (fun p => p.2.opkind.is_poly)) = .ok cfg ∧
      assocFind maxK r = some cfg ∧
      ∀ j ∈ (bnodes.filter (fun p => p.2.opkind.is_poly)).map (fun q => q.1), j ≠ maxK →
        assocFind j r = assocFind j results := by
  simp only [configureBucket] at h
  cases hno : confNonOpList results
      (bnodes.filter (fun p => p.2.opkind.is_const || p.2.opkind.is_input)) with
  | err e => simp only [hno] at h; cases h
  | panic => simp only [hno] at h; cases h
  | ok r1 =>
    simp only [hno] at h
    cases hlk : confLookupList r1 tables (bnodes.filter (fun p => p.2.opkind.is_lookup)) with
    | err e => simp only [hlk] at h; cases h
    | panic => simp only [hlk] at h; cases h
    | ok rt2 =>
      obtain ⟨r2, t2⟩ := rt2
      simp only [hlk] at h
      rw [if_neg (by simp [hne])] at h
      cases hcp : conf_poly_ops g vis.params (bnodes.filter (fun p => p.2.opkind.is_poly)) with
      | err e => simp only [hcp] at h; cases h
      | panic => simp only [hcp] at h; cases h
      | ok cfg =>
        simp only [hcp] at h
        cases hmx : maxOpt ((bnodes.filter (fun p => p.2.opkind.is_poly)).map (fun p => p.1)) with
        | none => simp only [hmx] at h; cases h
        | some maxK =>
          simp only [hmx] at h
          injection h with h
          have hr : r = assocInsert maxK cfg r2 := congrArg Prod.fst h.symm
          refine ⟨maxK, cfg, rfl, rfl, ?_, ?_⟩
          · rw [hr]; exact assocFind_insert_self maxK cfg r2
          · intro j hj hjne
            obtain ⟨q, hqf, hq1⟩ := List.mem_map.mp hj
            have hqb : q ∈ bnodes := (List.mem_filter.mp hqf).1
            have hqpoly : q.2.opkind.is_poly = true := (List.mem_filter.mp hqf).2
            have hjnon : j ∉ (bnodes.filter
                (fun p => p.2.opkind.is_const || p.2.opkind.is_input)).map Prod.fst := by
              intro hcontra
              obtain ⟨q', hq'f, hq'1⟩ := List.mem_map.mp hcontra
              have heq : q' = q := nodup_keys_eq hnodup (List.mem_filter.mp hq'f).1 hqb
                (by rw [hq'1, hq1])
              have := (List.mem_filter.mp hq'f).2
              rw [heq] at this
              rw [(opkind_poly_excl hqpoly).1] at this
              cases this
            have hjlk : j ∉ (bnodes.filter (fun p => p.2.opkind.is_lookup)).map Prod.fst := by
              intro hcontra
              obtain ⟨q', hq'f, hq'1⟩ := List.mem_map.mp hcontra
              have heq : q' = q := nodup_keys_eq hnodup (List.mem_filter.mp hq'f).1 hqb
                (by rw [hq'1, hq1])
              have := (List.mem_filter.mp hq'f).2
              rw [heq] at this
              rw [(opkind_poly_excl hqpoly).2] at this
              cases this
            rw [hr, assocFind_insert_ne hjne,
              confLookupList_untouched _ _ _ _ _ hlk j hjlk,
              confNonOpList_untouched _ _ _ hno j hjnon]

/-- **C5.** For every bucket containing `Poly` nodes, `configure` records
exactly one fused `NodeConfig` for the whole group, stored under the
maximum node index of the group, the fused gate's output shape comes from
that maximum-index node, and no other `Poly` node index of the group owns
a config entry. -/
theorem c5_one_fused_config_per_bucket
    (g : NodeGraph) (vis : VarVisibility)
    (results : List (Nat × NodeConfigE)) (tables : Tables)
    (hkeys : (g.buckets.flatMap (fun p => p.2.map Prod.fst)).Nodup)
    (h : configure g vis = .ok (results, tables)) :
    ∀ bk ∈ g.buckets,
      (bk.2.filter (fun p => p.2.opkind.is_poly)).isEmpty = false →
      ∃ maxK cfg,
        maxOpt ((bk.2.filter (fun p => p.2.opkind.is_poly)).map (fun q => q.1)) = some maxK ∧
        conf_poly_ops g vis.params (bk.2.filter (fun p => p.2.opkind.is_poly)) = .ok cfg ∧
        assocFind maxK results = some cfg ∧
        (∃ outNode binds a, g.filterNode maxK = some outNode ∧
          cfg = .polyC binds (.advice a outNode.out_dims)) ∧
        ∀ j ∈ (bk.2.filter (fun p => p.2.opkind.is_poly)).map (fun q => q.1), j ≠ maxK →
          assocFind j results = none := by
  intro bk hbk hne
  obtain ⟨B1, B2, hsplit⟩ := List.append_of_mem hbk
  unfold configure at h
  rw [hsplit] at h hkeys
  rw [configureLoop_append] at h
  cases h1 : configureLoop g vis [] ⟨[], 0⟩ B1 with
  | err e => simp only [h1] at h; cases h
  | panic => simp only [h1] at h; cases h
  | ok rt1 =>
    obtain ⟨r1, t1⟩ := rt1
    simp only [h1] at h
    simp only [configureLoop] at h
    cases h2 : configureBucket g vis bk.2 r1 t1 with
    | err e => simp only [h2] at h; cases h
    | panic => simp only [h2] at h; cases h
    | ok rt2 =>
      obtain ⟨r2, t2⟩ := rt2
      simp only [h2] at h
      have hkeys' : ((B1.flatMap (fun p => p.2.map Prod.fst)) ++
          ((bk.2.map Prod.fst) ++ (B2.flatMap (fun p => p.2.map Prod.fst)))).Nodup := by
        simpa [List.flatMap_append, List.flatMap_cons] using hkeys
      obtain ⟨hnB1, hrest, hdis1⟩ := List.nodup_append.mp hkeys'
      obtain ⟨hbknodup, hnB2, hdis2⟩ := List.nodup_append.mp hrest
      obtain ⟨maxK, cfg, hmx, hcp, hfind2, hunch⟩ :=
        configureBucket_poly_char g vis bk.2 r1 t1 r2 t2 h2 hbknodup hne
      have hkeybk : ∀ j, j ∈ (bk.2.filter (fun p => p.2.opkind.is_poly)).map (fun q => q.1) →
          j ∈ bk.2.map Prod.fst := by
        intro j hj
        obtain ⟨q, hqf, hq1⟩ := List.mem_map.mp hj
        exact List.mem_map.mpr ⟨q, List.mem_of_mem_filter hqf, hq1⟩
      have hmaxbk : maxK ∈ bk.2.map Prod.fst := hkeybk maxK (maxOpt_mem hmx)
      refine ⟨maxK, cfg, hmx, hcp, ?_, ?_, ?_⟩
      · rw [configureLoop_untouched g vis B2 r2 t2 results tables maxK h (hdis2 hmaxbk)]
        exact hfind2
      · obtain ⟨maxK', outNode, binds, a, hmx', hf, hcfg⟩ :=
          conf_poly_ops_output_shape g vis.params _ cfg hcp
        rw [hmx'] at hmx
        injection hmx with hmm
        subst hmm
        exact ⟨outNode, binds, a, hf, hcfg⟩
      · intro j hj hjne
        have hjbk : j ∈ bk.2.map Prod.fst := hkeybk j hj
        rw [configureLoop_untouched g vis B2 r2 t2 results tables j h (hdis2 hjbk),
          hunch j hj hjne,
          configureLoop_untouched g vis B1 [] ⟨[], 0⟩ r1 t1 j h1
            (fun hcontra => hdis1 hcontra (List.mem_append.mpr (Or.inl hjbk)))]
        rfl

/-- Bucket 0 of `scenarioAGraph`. -/
def scenarioABucket0 : List (Nat × Node) :=
  [(0, ⟨0, .input, [], [], [3], some 0⟩),
   (2, ⟨2, .poly 0, [0, 1], [[3], [3]], [3], some 0⟩),
   (4, ⟨4, .poly 1, [2, 3], [[3], [3]], [3], some 0⟩)]

/-- The `results` map `configure` records for `scenarioAGraph` under a
fully public policy. -/
def scenarioAResults : List (Nat × NodeConfigE) :=
  [(1, .constC), (3, .constC), (0, .inputC),
   (4, .polyC [(0, .advice 0 [3]), (1, .fixed 0 [3]), (3, .fixed 1 [3])] (.advice 1 [3]))]

/-- Witness for C5: the bucket-0 fusion group of scenario A receives one
config under its maximum index 4, with the output shape of node 4, and
node 2 receives none. -/
theorem c5_witness :
    ∃ maxK cfg,
      maxOpt ((scenarioABucket0.filter (fun p => p.2.opkind.is_poly)).map (fun q => q.1)) =
        some maxK ∧
      conf_poly_ops scenarioAGraph true (scenarioABucket0.filter (fun p => p.2.opkind.is_poly)) =
        .ok cfg ∧
      assocFind maxK scenarioAResults = some cfg ∧
      (∃ outNode binds a, scenarioAGraph.filterNode maxK = some outNode ∧
        cfg = .polyC binds (.advice a outNode.out_dims)) ∧
      ∀ j ∈ (scenarioABucket0.filter (fun p => p.2.opkind.is_poly)).map (fun q => q.1),
        j ≠ maxK → assocFind j scenarioAResults = none :=
  c5_one_fused_config_per_bucket scenarioAGraph ⟨true, true, true⟩ scenarioAResults ⟨[], 0⟩
    (by decide) (by decide) (some 0, scenarioABucket0) (by decide) (by decide)

/-! ### Claim C3 -/

/-- The operation-list key a lookup node's table is registered under
(`vec![op.clone()]` in `conf_table`). -/
def lookupKeyOf (n : Node) : List Nat :=
  match n.opkind with
  | .lookup l => [l]
  | _ => []

/-- The graph's lookup nodes in configure's iteration order (buckets in
order, ascending index within a bucket). -/
def lookupNodesOf (g : NodeGraph) : List (Nat × Node) :=
  g.buckets.flatMap (fun p => p.2.filter (fun q => q.2.opkind.is_lookup))

/-- The operation-list keys of the graph's lookup nodes, in iteration
order. -/
def lookupKeyList (g : NodeGraph) : List (List Nat) :=
  g.buckets.flatMap (fun p =>
    (p.2.filter (fun q => q.2.opkind.is_lookup)).map (fun q => lookupKeyOf q.2))

theorem assocFind_none_iff {α β : Type} [DecidableEq α] (k : α) :
    ∀ l : List (α × β), assocFind k l = none ↔ k ∉ l.map Prod.fst := by
  intro l
  induction l with
  | nil => simp [assocFind]
  | cons p rest ih =>
    obtain ⟨k', v⟩ := p
    simp only [assocFind, List.map_cons, List.mem_cons]
    by_cases he : k = k'
    · rw [if_pos he]; simp [he]
    · rw [if_neg he]; simpa [he] using ih

theorem assocFind_append_some {α β : Type} [DecidableEq α] {k : α} {v : β}
    {l1 : List (α × β)} (h : assocFind k l1 = some v) (l2 : List (α × β)) :
    assocFind k (l1 ++ l2) = some v := by
  induction l1 with
  | nil => cases h
  | cons p rest ih =>
    obtain ⟨k', v'⟩ := p
    simp only [assocFind] at h ⊢
    by_cases he : k = k'
    · rw [if_pos he] at h ⊢; exact h
    · rw [if_neg he] at h ⊢; exact ih h

theorem assocFind_append_none {α β : Type} [DecidableEq α] {k : α}
    {l1 : List (α × β)} (h : assocFind k l1 = none) (l2 : List (α × β)) :
    assocFind k (l1 ++ l2) = assocFind k l2 := by
  induction l1 with
  | nil => rfl
  | cons p rest ih =>
    obtain ⟨k', v'⟩ := p
    simp only [assocFind] at h ⊢
    by_cases he : k = k'
    · rw [if_pos he] at h; cases h
    · rw [if_neg he] at h ⊢; exact ih h

theorem conf_table_char {n : Node} {tables : Tables} {cfg : NodeConfigE} {t : Tables}
    (h : conf_table n tables = .ok (cfg, t)) :
    ∃ l, n.opkind = .lookup l ∧ lookupKeyOf n = [l] ∧
      ((assocFind [l] tables.assoc = none ∧
          t.assoc = tables.assoc ++ [([l], tables.nextId)] ∧ t.nextId = tables.nextId + 1 ∧
          cfg = .lookupC tables.nextId n.inputs) ∨
       (∃ tid, assocFind [l] tables.assoc = some tid ∧ t = tables ∧
          cfg = .lookupC tid n.inputs)) := by
  unfold conf_table at h
  cases hd : n.in_dims with
  | nil => rw [hd] at h; cases h
  | cons d rest =>
    rw [hd] at h
    cases hk : n.opkind with
    | lookup l =>
      simp only [hk] at h
      cases hf : assocFind [l] tables.assoc with
      | none =>
        simp only [hf] at h
        injection h with h
        refine ⟨l, rfl, by simp [lookupKeyOf, hk], Or.inl ⟨hf, ?_, ?_, ?_⟩⟩
        · exact (congrArg Tables.assoc (congrArg Prod.snd h)).symm
        · exact (congrArg Tables.nextId (congrArg Prod.snd h)).symm
        · exact (congrArg Prod.fst h).symm
      | some tid =>
        simp only [hf] at h
        injection h with h
        exact ⟨l, rfl, by simp [lookupKeyOf, hk],
          Or.inr ⟨tid, hf, (congrArg Prod.snd h).symm, (congrArg Prod.fst h).symm⟩⟩
    | input => simp [hk] at h
    | const => simp [hk] at h
    | poly op => simp [hk] at h
    | unknown => simp [hk] at h

theorem firstOccurAux_append {α : Type} [DecidableEq α] :
    ∀ (xs ys seen : List α),
      firstOccurAux seen (xs ++ ys) =
        firstOccurAux seen xs ++ firstOccurAux (seen ++ firstOccurAux seen xs) ys := by
  intro xs
  induction xs with
  | nil => intro ys seen; simp [firstOccurAux]
  | cons x rest ih =>
    intro ys seen
    simp only [List.cons_append, firstOccurAux, List.append_eq]
    by_cases hx : seen.contains x = true
    · rw [if_pos hx, if_pos hx]
      exact ih ys seen
    · rw [if_neg hx, if_neg hx]
      rw [ih ys (seen ++ [x])]
      simp [List.append_assoc]

theorem confLookupList_keys :
    ∀ (l : List (Nat × Node)) (results : List (Nat × NodeConfigE)) (tables : Tables)
      (r : List (Nat × NodeConfigE)) (t : Tables),
      confLookupList results tables l = .ok (r, t) →
      t.assoc.map Prod.fst =
        tables.assoc.map Prod.fst ++
          firstOccurAux (tables.assoc.map Prod.fst) (l.map (fun q => lookupKeyOf q.2)) := by
  intro l
  induction l with
  | nil =>
    intro results tables r t h
    injection h with h
    rw [show t = tables from congrArg Prod.snd h.symm]
    simp [firstOccurAux]
  | cons p rest ih =>
    intro results tables r t h
    obtain ⟨i, n⟩ := p
    simp only [confLookupList] at h
    cases hct : conf_table n tables with
    | err e => simp only [hct] at h; cases h
    | panic => simp only [hct] at h; cases h
    | ok ct =>
      obtain ⟨cfg, tbl⟩ := ct
      simp only [hct] at h
      obtain ⟨opl, hkop, hkey, hbranch⟩ := conf_table_char hct
      simp only [List.map_cons, firstOccurAux, hkey]
      rcases hbranch with ⟨hnone, hassoc, _, _⟩ | ⟨tid, hsome, htbleq, _⟩
      · have hnotmem : [opl] ∉ tables.assoc.map Prod.fst :=
          (assocFind_none_iff _ _).mp hnone
        rw [if_neg (by simpa using hnotmem)]
        rw [ih _ _ _ _ h, hassoc]
        simp [List.append_assoc]
      · have hmem : [opl] ∈ tables.assoc.map Prod.fst := by
          have hne : assocFind [opl] tables.assoc ≠ none := by rw [hsome]; simp
          by_contra hc
          exact hne ((assocFind_none_iff _ _).mpr hc)
        subst htbleq
        rw [if_pos (by simpa using hmem)]
        exact ih _ _ _ _ h

theorem confLookupList_tables_mono :
    ∀ (l : List (Nat × Node)) (results : List (Nat × NodeConfigE)) (tables : Tables)
      (r : List (Nat × NodeConfigE)) (t : Tables),
      confLookupList results tables l = .ok (r, t) →
      ∀ (k : List Nat) (tid : Nat), assocFind k tables.assoc = some tid →
        assocFind k t.assoc = some tid := by
  intro l
  induction l with
  | nil =>
    intro results tables r t h k tid hk
    injection h with h
    rw [show t = tables from congrArg Prod.snd h.symm]
    exact hk
  | cons p rest ih =>
    intro results tables r t h k tid hk
    obtain ⟨i, n⟩ := p
    simp only [confLookupList] at h
    cases hct : conf_table n tables with
    | err e => simp only [hct] at h; cases h
    | panic => simp only [hct] at h; cases h
    | ok ct =>
      obtain ⟨cfg, tbl⟩ := ct
      simp only [hct] at h
      obtain ⟨opl, hkop, hkey, hbranch⟩ := conf_table_char hct
      rcases hbranch with ⟨_, hassoc, _, _⟩ | ⟨tid', _, rfl, _⟩
      · refine ih _ _ _ _ h k tid ?_
        rw [hassoc]
        exact assocFind_append_some hk _
      · exact ih _ _ _ _ h k tid hk

theorem confLookupList_node_char :
    ∀ (l : List (Nat × Node)) (results : List (Nat × NodeConfigE)) (tables : Tables)
      (r : List (Nat × NodeConfigE)) (t : Tables),
      confLookupList results tables l = .ok (r, t) →
      (l.map Prod.fst).Nodup →
      ∀ (i : Nat) (n : Node), (i, n) ∈ l →
        ∃ tid, assocFind i r = some (.lookupC tid n.inputs) ∧
          assocFind (lookupKeyOf n) t.assoc = some tid := by
  intro l
  induction l with
  | nil => intro _ _ _ _ _ _ i n hmem; cases hmem
  | cons p rest ih =>
    intro results tables r t h hnodup i n hmem
    obtain ⟨i0, n0⟩ := p
    simp only [confLookupList] at h
    cases hct : conf_table n0 tables with
    | err e => simp only [hct] at h; cases h
    | panic => simp only [hct] at h; cases h
    | ok ct =>
      obtain ⟨cfg, tbl⟩ := ct
      simp only [hct] at h
      obtain ⟨opl, hkop, hkey, hbranch⟩ := conf_table_char hct
      simp only [List.map_cons, List.nodup_cons] at hnodup
      rcases List.mem_cons.mp hmem with heq | hmem'
      · injection heq with h1 h2
        subst h1
        subst h2
        have hfound : ∃ tid, cfg = .lookupC tid n.inputs ∧
            assocFind (lookupKeyOf n) tbl.assoc = some tid := by
          rcases hbranch with ⟨hnone, hassoc, _, hcfg⟩ | ⟨tid, hsome, rfl, hcfg⟩
          · refine ⟨tables.nextId, hcfg, ?_⟩
            rw [hkey, hassoc, assocFind_append_none hnone]
            simp [assocFind]
          · exact ⟨tid, hcfg, by rw [hkey]; exact hsome⟩
        obtain ⟨tid, hcfg, htbl⟩ := hfound
        refine ⟨tid, ?_, ?_⟩
        · rw [confLookupList_untouched _ _ _ _ _ h i (by
            intro hcontra
            exact hnodup.1 hcontra)]
          rw [hcfg] at *
          exact assocFind_insert_self i _ results
        · exact confLookupList_tables_mono _ _ _ _ _ h _ tid htbl
      · exact ih _ _ _ _ h hnodup.2 i n hmem'

theorem opkind_lookup_excl {k : OpKind} (h : k.is_lookup = true) :
    k.is_poly = false ∧ (k.is_const || k.is_input) = false := by
  cases k <;> simp_all [OpKind.is_poly, OpKind.is_const, OpKind.is_input, OpKind.is_lookup]

theorem configureBucket_stages
    (g : NodeGraph) (vis : VarVisibility) (bnodes : List (Nat × Node))
    (results : List (Nat × NodeConfigE)) (tables : Tables)
    (r : List (Nat × NodeConfigE)) (t : Tables)
    (h : configureBucket g vis bnodes results tables = .ok (r, t)) :
    ∃ r1 r2,
      confNonOpList results
        (bnodes.filter (fun p => p.2.opkind.is_const || p.2.opkind.is_input)) = .ok r1 ∧
      confLookupList r1 tables (bnodes.filter (fun p => p.2.opkind.is_lookup)) = .ok (r2, t) ∧
      (r = r2 ∨
        ∃ cfg maxK,
          conf_poly_ops g vis.params (bnodes.filter (fun p => p.2.opkind.is_poly)) = .ok cfg ∧
          maxOpt ((bnodes.filter (fun p => p.2.opkind.is_poly)).map (fun q => q.1)) = some maxK ∧
          maxK ∈ (bnodes.filter (fun p => p.2.opkind.is_poly)).map (fun q => q.1) ∧
          r = assocInsert maxK cfg r2) := by
  simp only [configureBucket] at h
  cases hno : confNonOpList results
      (bnodes.filter (fun p => p.2.opkind.is_const || p.2.opkind.is_input)) with
  | err e => simp only [hno] at h; cases h
  | panic => simp only [hno] at h; cases h
  | ok r1 =>
    simp only [hno] at h
    cases hlk : confLookupList r1 tables (bnodes.filter (fun p => p.2.opkind.is_lookup)) with
    | err e => simp only [hlk] at h; cases h
    | panic => simp only [hlk] at h; cases h
    | ok rt2 =>
      obtain ⟨r2, t2⟩ := rt2
      simp only [hlk] at h
      by_cases hemp : (bnodes.filter (fun p => p.2.opkind.is_poly)).isEmpty = true
      · rw [if_pos hemp] at h
        injection h with h
        have hr : r = r2 := congrArg Prod.fst h.symm
        have ht : t2 = t := congrArg Prod.snd h
        rw [← ht]
        exact ⟨r1, r2, rfl, hlk, Or.inl hr⟩
      · rw [if_neg hemp] at h
        cases hcp : conf_poly_ops g vis.params
            (bnodes.filter (fun p => p.2.opkind.is_poly)) with
        | err e => simp only [hcp] at h; cases h
        | panic => simp only [hcp] at h; cases h
        | ok cfg =>
          simp only [hcp] at h
          cases hmx : maxOpt ((bnodes.filter (fun p => p.2.opkind.is_poly)).map
              (fun p => p.1)) with
          | none => simp only [hmx] at h; cases h
          | some maxK =>
            simp only [hmx] at h
            injection h with h
            have hr : r = assocInsert maxK cfg r2 := congrArg Prod.fst h.symm
            have ht : t2 = t := congrArg Prod.snd h
            rw [← ht]
            exact ⟨r1, r2, rfl, hlk,
              Or.inr ⟨cfg, maxK, rfl, rfl, maxOpt_mem hmx, hr⟩⟩

theorem configureBucket_tables
    (g : NodeGraph) (vis : VarVisibility) (bnodes : List (Nat × Node))
    (results : List (Nat × NodeConfigE)) (tables : Tables)
    (r : List (Nat × NodeConfigE)) (t : Tables)
    (h : configureBucket g vis bnodes results tables = .ok (r, t)) :
    t.assoc.map Prod.fst =
      tables.assoc.map Prod.fst ++
        firstOccurAux (tables.assoc.map Prod.fst)
          ((bnodes.filter (fun p => p.2.opkind.is_lookup)).map (fun q => lookupKeyOf q.2)) := by
  obtain ⟨r1, r2, _, hlk, _⟩ := configureBucket_stages g vis bnodes results tables r t h
  exact confLookupList_keys _ _ _ _ _ hlk

theorem configureBucket_tables_mono
    (g : NodeGraph) (vis : VarVisibility) (bnodes : List (Nat × Node))
    (results : List (Nat × NodeConfigE)) (tables : Tables)
    (r : List (Nat × NodeConfigE)) (t : Tables)
    (h : configureBucket g vis bnodes results tables = .ok (r, t)) :
    ∀ (k : List Nat) (tid : Nat), assocFind k tables.assoc = some tid →
      assocFind k t.assoc = some tid := by
  obtain ⟨r1, r2, _, hlk, _⟩ := configureBucket_stages g vis bnodes results tables r t h
  exact confLookupList_tables_mono _ _ _ _ _ hlk

theorem configureBucket_lookup_node_char
    (g : NodeGraph) (vis : VarVisibility) (bnodes : List (Nat × Node))
    (results : List (Nat × NodeConfigE)) (tables : Tables)
    (r : List (Nat × NodeConfigE)) (t : Tables)
    (h : configureBucket g vis bnodes results tables = .ok (r, t))
    (hnodup : (bnodes.map Prod.fst).Nodup)
    (i : Nat) (n : Node) (hmem : (i, n) ∈ bnodes) (hlkk : n.opkind.is_lookup = true) :
    ∃ tid, assocFind i r = some (.lookupC tid n.inputs) ∧
      assocFind (lookupKeyOf n) t.assoc = some tid := by
  obtain ⟨r1, r2, hno, hlk, hpoly⟩ := configureBucket_stages g vis bnodes results tables r t h
  have hmemL : (i, n) ∈ bnodes.filter (fun p => p.2.opkind.is_lookup) :=
    List.mem_filter.mpr ⟨hmem, hlkk⟩
  have hnodupL : ((bnodes.filter (fun p => p.2.opkind.is_lookup)).map Prod.fst).Nodup :=
    List.Nodup.sublist (List.Sublist.map _ (List.filter_sublist _)) hnodup
  obtain ⟨tid, hfind, htbl⟩ :=
    confLookupList_node_char _ _ _ _ _ hlk hnodupL i n hmemL
  refine ⟨tid, ?_, htbl⟩
  rcases hpoly with rfl | ⟨cfg, maxK, _, _, hmaxmem, hr⟩
  · exact hfind
  · obtain ⟨q, hqf, hq1⟩ := List.mem_map.mp hmaxmem
    have hqpoly : q.2.opkind.is_poly = true := (List.mem_filter.mp hqf).2
    have hine : i ≠ maxK := by
      intro hcontra
      subst hcontra
      have heq : q = (i, n) := nodup_keys_eq hnodup (List.mem_filter.mp hqf).1 hmem hq1
      rw [heq] at hqpoly
      rw [(opkind_lookup_excl hlkk).1] at hqpoly
      cases hqpoly
    rw [hr, assocFind_insert_ne hine]
    exact hfind

theorem configureLoop_tables (g : NodeGraph) (vis : VarVisibility) :
    ∀ (bks : List (Option Nat × List (Nat × Node)))
      (results : List (Nat × NodeConfigE)) (tables : Tables)
      (r : List (Nat × NodeConfigE)) (t : Tables),
      configureLoop g vis results tables bks = .ok (r, t) →
      t.assoc.map Prod.fst =
        tables.assoc.map Prod.fst ++
          firstOccurAux (tables.assoc.map Prod.fst)
            (bks.flatMap (fun p =>
              (p.2.filter (fun q => q.2.opkind.is_lookup)).map (fun q => lookupKeyOf q.2))) := by
  intro bks
  induction bks with
  | nil =>
    intro results tables r t h
    injection h with h
    rw [show t = tables from congrArg Prod.snd h.symm]
    simp [firstOccurAux]
  | cons p rest ih =>
    intro results tables r t h
    obtain ⟨b, bnodes⟩ := p
    simp only [configureLoop] at h
    cases hcb : configureBucket g vis bnodes results tables with
    | err e => simp only [hcb] at h; cases h
    | panic => simp only [hcb] at h; cases h
    | ok rt1 =>
      obtain ⟨r1, t1⟩ := rt1
      simp only [hcb] at h
      have hb := configureBucket_tables g vis bnodes results tables r1 t1 hcb
      rw [ih _ _ _ _ h, hb]
      simp only [List.flatMap_cons, firstOccurAux_append, List.append_assoc]

theorem configureLoop_tables_mono (g : NodeGraph) (vis : VarVisibility) :
    ∀ (bks : List (Option Nat × List (Nat × Node)))
      (results : List (Nat × NodeConfigE)) (tables : Tables)
      (r : List (Nat × NodeConfigE)) (t : Tables),
      configureLoop g vis results tables bks = .ok (r, t) →
      ∀ (k : List Nat) (tid : Nat), assocFind k tables.assoc = some tid →
        assocFind k t.assoc = some tid := by
  intro bks
  induction bks with
  | nil =>
    intro results tables r t h k tid hk
    injection h with h
    rw [show t = tables from congrArg Prod.snd h.symm]
    exact hk
  | cons p rest ih =>
    intro results tables r t h k tid hk
    obtain ⟨b, bnodes⟩ := p
    simp only [configureLoop] at h
    cases hcb : configureBucket g vis bnodes results tables with
    | err e => simp only [hcb] at h; cases h
    | panic => simp only [hcb] at h; cases h
    | ok rt1 =>
      obtain ⟨r1, t1⟩ := rt1
      simp only [hcb] at h
      exact ih _ _ _ _ h k tid
        (configureBucket_tables_mono g vis bnodes results tables r1 t1 hcb k tid hk)

/-- **C3.** After `configure`, the registered lookup-table keys are
exactly the distinct operation-list keys of the graph's lookup nodes in
first-encountered order, so the number of tables equals the number of
distinct keys (not the number of lookup nodes); and every lookup node's
recorded config points at the table registered for its key, so two
lookup nodes with the same key share one table. -/
theorem c3_table_dedup
    (g : NodeGraph) (vis : VarVisibility)
    (results : List (Nat × NodeConfigE)) (tables : Tables)
    (hkeys : (g.buckets.flatMap (fun p => p.2.map Prod.fst)).Nodup)
    (h : configure g vis = .ok (results, tables)) :
    tables.assoc.map Prod.fst = firstOccur (lookupKeyList g) ∧
    tables.assoc.length = (firstOccur (lookupKeyList g)).length ∧
    ∀ bk ∈ g.buckets, ∀ p ∈ bk.2, p.2.opkind.is_lookup = true →
      ∃ tid, assocFind p.1 results = some (.lookupC tid p.2.inputs) ∧
        assocFind (lookupKeyOf p.2) tables.assoc = some tid := by
  have hkeysEq : tables.assoc.map Prod.fst = firstOccur (lookupKeyList g) := by
    have := configureLoop_tables g vis g.buckets [] ⟨[], 0⟩ results tables h
    simpa [firstOccur, lookupKeyList] using this
  refine ⟨hkeysEq, ?_, ?_⟩
  · rw [← hkeysEq, List.length_map]
  · intro bk hbk p hp hlkk
    obtain ⟨B1, B2, hsplit⟩ := List.append_of_mem hbk
    unfold configure at h
    rw [hsplit] at h hkeys
    rw [configureLoop_append] at h
    cases h1 : configureLoop g vis [] ⟨[], 0⟩ B1 with
    | err e => simp only [h1] at h; cases h
    | panic => simp only [h1] at h; cases h
    | ok rt1 =>
      obtain ⟨r1, t1⟩ := rt1
      simp only [h1] at h
      simp only [configureLoop] at h
      cases h2 : configureBucket g vis bk.2 r1 t1 with
      | err e => simp only [h2] at h; cases h
      | panic => simp only [h2] at h; cases h
      | ok rt2 =>
        obtain ⟨r2, t2⟩ := rt2
        simp only [h2] at h
        have hkeys' : ((B1.flatMap (fun p => p.2.map Prod.fst)) ++
            ((bk.2.map Prod.fst) ++ (B2.flatMap (fun p => p.2.map Prod.fst)))).Nodup := by
          simpa [List.flatMap_append, List.flatMap_cons] using hkeys
        obtain ⟨hnB1, hrest, hdis1⟩ := List.nodup_append.mp hkeys'
        obtain ⟨hbknodup, hnB2, hdis2⟩ := List.nodup_append.mp hrest
        obtain ⟨tid, hfind, htbl⟩ :=
          configureBucket_lookup_node_char g vis bk.2 r1 t1 r2 t2 h2 hbknodup p.1 p.2
            (by simpa using hp) hlkk
        have hpbk : p.1 ∈ bk.2.map Prod.fst := List.mem_map.mpr ⟨p, hp, rfl⟩
        refine ⟨tid, ?_, ?_⟩
        · rw [configureLoop_untouched g vis B2 r2 t2 results tables p.1 h (hdis2 hpbk)]
          exact hfind
        · exact configureLoop_tables_mono g vis B2 r2 t2 results tables h _ tid htbl

/-- Scenario B of the spec: `Input(0) -> Lookup(sigmoid) -> Lookup(sigmoid)`
after bucket assignment — two distinct buckets, one operation key. -/
def scenarioBGraph : NodeGraph :=
  ⟨[(some 0, [(0, ⟨0, .input, [], [], [4], some 0⟩)]),
    (some 1, [(1, ⟨1, .lookup 9, [0], [[4]], [4], some 1⟩)]),
    (some 2, [(2, ⟨2, .lookup 9, [1], [[4]], [4], some 2⟩)])]⟩

/-- Witness for C3: configuring scenario B registers one table under key
`[9]` shared by both lookup nodes. -/
theorem c3_witness :
    ([([9], 0)] : List (List Nat × Nat)).map Prod.fst = firstOccur (lookupKeyList scenarioBGraph) ∧
    ([([9], 0)] : List (List Nat × Nat)).length = (firstOccur (lookupKeyList scenarioBGraph)).length ∧
    ∀ bk ∈ scenarioBGraph.buckets, ∀ p ∈ bk.2, p.2.opkind.is_lookup = true →
      ∃ tid, assocFind p.1
          [(0, NodeConfigE.inputC), (1, NodeConfigE.lookupC 0 [0]), (2, NodeConfigE.lookupC 0 [1])] =
          some (.lookupC tid p.2.inputs) ∧
        assocFind (lookupKeyOf p.2) [([9], 0)] = some tid :=
  c3_table_dedup scenarioBGraph ⟨true, true, true⟩
    [(0, .inputC), (1, .lookupC 0 [0]), (2, .lookupC 0 [1])] ⟨[([9], 0)], 1⟩
    (by decide) (by decide)

/-! ### Claim C4 -/

/-- A lookup node with two inputs. -/
def c4Node : Node := ⟨5, .lookup 7, [1, 2], [[4]], [4], some 1⟩

/-- Counterexample to C4 as stated: `conf_table` succeeds on a lookup
node with two inputs instead of failing with `InvalidLookupInputs`. -/
theorem c4_counterexample :
    c4Node.inputs.length ≠ 1 ∧
      conf_table c4Node ⟨[], 0⟩ = .ok (.lookupC 0 [1, 2], ⟨[([7], 0)], 1⟩) := by
  decide

/-- **C4 (amended).** `conf_table` does not validate the input count: any
lookup node with nonempty `in_dims` receives a successful lookup
configuration regardless of how many inputs it lists; the
exactly-one-input rule is enforced at layout time, where `layout_config`
fails with `InvalidLookupInputs` whenever the config's input list does
not have length one. -/
theorem c4_lookup_input_check_at_layout :
    (∀ (n : Node) (tables : Tables), n.opkind.is_lookup = true → n.in_dims ≠ [] →
      ∃ cfg t, conf_table n tables = .ok (cfg, t)) ∧
    (∀ (g : NodeGraph) (resultKeys : List Nat) (tid : Nat) (ins : List Nat),
      ins.length ≠ 1 →
      layout_config g resultKeys (.lookupC tid ins) = .err .InvalidLookupInputs) := by
  constructor
  · intro n tables hlk hdim
    cases hd : n.in_dims with
    | nil => exact absurd hd hdim
    | cons d rest =>
      cases hk : n.opkind with
      | lookup l =>
        simp only [conf_table, hd, hk]
        cases hfind : assocFind [l] tables.assoc with
        | none =>
          exact ⟨.lookupC tables.nextId n.inputs,
            ⟨tables.assoc ++ [([l], tables.nextId)], tables.nextId + 1⟩, rfl⟩
        | some tid => exact ⟨.lookupC tid n.inputs, tables, rfl⟩
      | input => rw [hk] at hlk; cases hlk
      | const => rw [hk] at hlk; cases hlk
      | poly op => rw [hk] at hlk; cases hlk
      | unknown => rw [hk] at hlk; cases hlk
  · intro g resultKeys tid ins hlen
    simp only [layout_config]
    rw [if_pos hlen]

/-- Witness for the amended C4 at concrete inputs: the two-input lookup
node is configured successfully, and laying out a two-input lookup
config fails with `InvalidLookupInputs`. -/
theorem c4_witness :
    (c4Node.opkind.is_lookup = true ∧ c4Node.in_dims ≠ [] ∧
      ∃ cfg t, conf_table c4Node ⟨[], 0⟩ = .ok (cfg, t)) ∧
    (([1, 2] : List Nat).length ≠ 1 ∧
      layout_config scenarioBGraph [0] (.lookupC 0 [1, 2]) = .err .InvalidLookupInputs) :=
  ⟨⟨by decide, by decide,
      c4_lookup_input_check_at_layout.1 c4Node ⟨[], 0⟩ (by decide) (by decide)⟩,
   ⟨by decide, c4_lookup_input_check_at_layout.2 scenarioBGraph [0] 0 [1, 2] (by decide)⟩⟩

/-! ### Claim C7 -/

/-- Counterexample to C7 as stated: on scenario A (public params) the
code returns `num_fixed = 3`, not `2`, although the largest count of
distinct constant external inputs over any fusion group is 2. -/
theorem c7_counterexample :
    assign_execution_buckets scenarioANodes = .ok scenarioAGraph ∧
      specMaxParams scenarioAGraph = 2 ∧
      num_fixed scenarioAGraph true = 3 ∧
      num_fixed scenarioAGraph true ≠ 2 := by
  decide

/-- **C7 (amended).** `num_fixed` equals `max_params + 1` when params are
public — `max_node_params` adds one extra slot "for layer output" on top
of the largest count of distinct constant external inputs over any one
bucket's fusion group — and 0 otherwise; in particular scenario A with
public params yields `num_fixed = 3`. -/
theorem c7_num_fixed_amended :
    (∀ (g : NodeGraph) (paramsPublic : Bool),
      num_fixed g paramsPublic = if paramsPublic then specMaxParams g + 1 else 0) ∧
    num_fixed scenarioAGraph true = 3 ∧ specMaxParams scenarioAGraph = 2 := by
  refine ⟨?_, by decide, by decide⟩
  intro g p
  cases p <;> rfl

/-! ### Claim C8 -/

/-- Counterexample to C8 as stated: on scenario A with private params the
code returns `num_advice = 5`, while the claim's formula — one output
slot in each term — yields 4. -/
theorem c8_counterexample :
    num_advice scenarioAGraph false = 5 ∧
      max (max_node_vars_non_fused scenarioAGraph)
        (specMaxParams scenarioAGraph + max_node_vars_fused scenarioAGraph) = 4 ∧
      num_advice scenarioAGraph false ≠
        max (max_node_vars_non_fused scenarioAGraph)
          (specMaxParams scenarioAGraph + max_node_vars_fused scenarioAGraph) := by
  decide

/-- **C8 (amended).** When params are public, `num_advice` is
`max(max_vars_non_fused, max_vars_fused)` exactly as claimed, each term
reserving one output slot; but when params are private the added params
term is `max_node_params = max_params + 1`, which carries its own extra
output slot, so `num_advice = max(max_vars_non_fused, (max_params + 1) +
max_vars_fused)` — one slot more than the claim's formula whenever the
fused term dominates. -/
theorem c8_num_advice_amended :
    ∀ g : NodeGraph,
      num_advice g true = max (max_node_vars_non_fused g) (max_node_vars_fused g) ∧
      num_advice g false =
        max (max_node_vars_non_fused g) ((specMaxParams g + 1) + max_node_vars_fused g) ∧
      max_node_vars_non_fused g = specMaxVarsNonFused g + 1 ∧
      max_node_vars_fused g = specMaxVarsFused g + 1 :=
  fun _ => ⟨rfl, rfl, rfl, rfl⟩

/-! ### Claim C9 -/

/-- The whole compilation pipeline as one function: bucket assignment,
then — on success — the configure pass's table keys, the instance counts
and shapes, and the advice and fixed column counts. -/
def full_pipeline (nodes : List Node) (vis : VarVisibility) (ins outs : List Nat) :
    Option (NodeGraph × Option (List (List Nat)) × (Nat × List (List Nat)) × Nat × Nat) :=
  match assign_execution_buckets nodes with
  | .ok g =>
    some (g,
      (match configure g vis with
       | .ok (_, t) => some (t.assoc.map Prod.fst)
       | _ => none),
      num_instances ⟨g, ins, outs, vis⟩,
      num_advice g vis.params,
      num_fixed g vis.params)
  | _ => none

/-- **C9.** Compilation is deterministic: two runs of the pipeline on the
same node graph with the same visibility policy produce identical bucket
assignments, identical lookup-table key sets, and identical
`num_instances`, `num_advice` and `num_fixed`. -/
theorem c9_deterministic (nodes : List Node) (vis : VarVisibility) (ins outs : List Nat)
    (r1 r2 : Option (NodeGraph × Option (List (List Nat)) × (Nat × List (List Nat)) × Nat × Nat))
    (h1 : r1 = full_pipeline nodes vis ins outs)
    (h2 : r2 = full_pipeline nodes vis ins outs) : r1 = r2 :=
  h1.trans h2.symm

/-- Witness for C9 at a concrete input: two runs on scenario A agree. -/
theorem c9_witness :
    full_pipeline scenarioANodes ⟨true, true, true⟩ [0] [4] =
      full_pipeline scenarioANodes ⟨true, true, true⟩ [0] [4] :=
  c9_deterministic scenarioANodes ⟨true, true, true⟩ [0] [4] _ _ rfl rfl

end EzklModel
